import Mathlib

/-
Verification of the pcf2_attribution engine of facebookresearch/FBPCS.

Shallow embedding of fbpcs/emp_games/pcf2_attribution/AttributionGame_impl.h:
the attribution matching helpers (V1 and V2), threshold sharing, rule
negotiation, and ad-id compression.  Secret-shared booleans and integers
(SecBit, SecTimestamp, SecAdId) are modelled by their plaintext values
(Bool / Nat): every oblivious gate (AND, OR, NOT, mux) computes the same
function of the underlying plaintexts, so the engine's dataflow is exactly
preserved.  The embedding follows the row-wise (usingBatch = false)
instantiation of the templates; in batch mode the source runs the identical
boolean dataflow independently on every lane of the batch, and the
`usingBatch` / `batchSize` parameters are kept because the source executes a
batch-size guard in batch mode.  Fatal errors (throw / CHECK failures) are
modelled by `Except.error`.
-/

namespace Pcf2Attribution

/-- A publisher touchpoint (Touchpoint.h): local id, click flag, timestamp,
compressed ad id and pre-compression original ad id. -/
structure Touchpoint where
  id : Nat
  isClick : Bool
  ts : Nat
  adId : Nat
  originalAdId : Nat
deriving DecidableEq

/-- A partner conversion: timestamp and conversion value. -/
structure Conversion where
  ts : Nat
  convValue : Nat
deriving DecidableEq

/-- An attribution rule: numeric id, name, the oblivious attribution
predicate (receiving the touchpoint, the conversion and the per-touchpoint
threshold vector), and the two threshold computations (plaintext and
secret-shared mode).  The rule bodies live in AttributionRule.h; the engine
is generic in them, so they are fields here. -/
structure AttributionRule where
  id : Nat
  name : String
  isAttributable : Touchpoint → Conversion → List Nat → Bool
  computeThresholdsPlaintext : Touchpoint → List Nat
  computeThresholdsPrivate : Touchpoint → Nat → List Nat

/-- One record of the reformatted (V2) output: the oblivious-selected ad id,
the conversion value, and the attribution flag. -/
structure AttributionReformattedOutputFmt where
  ad_id : Nat
  conv_value : Nat
  is_attributed : Bool
deriving DecidableEq

/-- The attribution predicate of a rule applied to one
(touchpoint, threshold) pair for a fixed conversion. -/
def attrPred (rule : AttributionRule) (conv : Conversion)
    (p : Touchpoint × List Nat) : Bool :=
  rule.isAttributable p.1 conv p.2

/-- The inner reverse loop of computeAttributionsHelper for one conversion
(AttributionGame_impl.h lines 355-398), running over the already-reversed
(touchpoint, threshold) list: each step computes
isAttributed = isTouchpointAttributable AND NOT hasAttributedTouchpoint,
updates hasAttributedTouchpoint, and pushes isAttributed. -/
def scanConv (rule : AttributionRule) (conv : Conversion)
    (hasAttributedTouchpoint : Bool) :
    List (Touchpoint × List Nat) → List Bool
  | [] => []
  | p :: rest =>
    let isTouchpointAttributable := rule.isAttributable p.1 conv p.2
    let isAttributed := isTouchpointAttributable && !hasAttributedTouchpoint
    isAttributed :: scanConv rule conv (isAttributed || hasAttributedTouchpoint) rest

/-- The inner reverse loop of computeAttributionsHelperV2 for one conversion
(AttributionGame_impl.h lines 479-522): same bit dataflow as `scanConv`, and
additionally attributedAdId = mux(isAttributed, tp.adId, attributedAdId).
Returns the final (hasAttributedTouchpoint, attributedAdId) state. -/
def scanConvV2 (rule : AttributionRule) (conv : Conversion)
    (hasAttributedTouchpoint : Bool) (attributedAdId : Nat) :
    List (Touchpoint × List Nat) → Bool × Nat
  | [] => (hasAttributedTouchpoint, attributedAdId)
  | p :: rest =>
    let isTouchpointAttributable := rule.isAttributable p.1 conv p.2
    let isAttributed := isTouchpointAttributable && !hasAttributedTouchpoint
    scanConvV2 rule conv (isAttributed || hasAttributedTouchpoint)
      (if isAttributed then p.1.adId else attributedAdId) rest

/-- Error message of the batch-size guard in AttributionGame_impl.h. -/
def batchSizeErrorMsg : String :=
  "Must provide positive batch size for batch execution!"

/-- Error message of the CHECK_EQ between touchpoints and thresholds. -/
def thresholdLengthErrorMsg : String :=
  "touchpoints and thresholds are not the same length."

/-- computeAttributionsHelper (AttributionGame_impl.h lines 295-402): V1
attribution.  Guard: in batch mode a zero batch size throws.  The outer loop
walks conversions in reverse; inside it, CHECK_EQ(touchpoints.size(),
thresholds.size()) aborts on mismatch (so the mismatch is only observed when
at least one conversion exists); the inner loop walks touchpoints in reverse
pushing each isAttributed bit; finally the collected vector is reversed. -/
def computeAttributionsHelper (usingBatch : Bool) (batchSize : Nat)
    (touchpoints : List Touchpoint) (conversions : List Conversion)
    (attributionRule : AttributionRule) (thresholds : List (List Nat)) :
    Except String (List Bool) :=
  if usingBatch ∧ batchSize = 0 then
    Except.error batchSizeErrorMsg
  else if conversions ≠ [] ∧ touchpoints.length ≠ thresholds.length then
    Except.error thresholdLengthErrorMsg
  else
    Except.ok
      ((conversions.reverse.flatMap (fun conv =>
        scanConv attributionRule conv false
          ((touchpoints.zip thresholds).reverse))).reverse)

/-- computeAttributionsHelperV2 (AttributionGame_impl.h lines 404-531): V2
attribution.  Same guards and loop structure as V1; per conversion the
attributedAdId starts at 0, each inner step muxes in tp.adId when that
touchpoint is attributed, and one record (ad_id, conv_value, is_attributed)
is pushed per conversion; the record vector is reversed at the end. -/
def computeAttributionsHelperV2 (usingBatch : Bool) (batchSize : Nat)
    (touchpoints : List Touchpoint) (conversions : List Conversion)
    (attributionRule : AttributionRule) (thresholds : List (List Nat)) :
    Except String (List AttributionReformattedOutputFmt) :=
  if usingBatch ∧ batchSize = 0 then
    Except.error batchSizeErrorMsg
  else if conversions ≠ [] ∧ touchpoints.length ≠ thresholds.length then
    Except.error thresholdLengthErrorMsg
  else
    Except.ok
      ((conversions.reverse.map (fun conv =>
        let st := scanConvV2 attributionRule conv false 0
          ((touchpoints.zip thresholds).reverse)
        { ad_id := st.2, conv_value := conv.convValue,
          is_attributed := st.1 })).reverse)

/-- Marks, for each position of the list, whether it is the first position
satisfying `pred`: the bit of the head is `pred head`, and once a position
satisfies `pred` all later bits are false.  This is what `scanConv` computes
when started with hasAttributedTouchpoint = false. -/
def firstMarker (pred : α → Bool) : List α → List Bool
  | [] => []
  | p :: rest =>
    pred p ::
      (if pred p then List.replicate rest.length false else firstMarker pred rest)

/-- Marks, for each position of the list, whether it is the last position
satisfying `pred`. -/
def lastMarker (pred : α → Bool) : List α → List Bool
  | [] => []
  | p :: rest => (pred p && !rest.any pred) :: lastMarker pred rest

/-- Input encryption mode (common::InputEncryption). -/
inductive InputEncryption
  | Plaintext
  | PartnerXor
  | Xor
deriving DecidableEq

/-- common::PUBLISHER. -/
def PUBLISHER : Nat := 0

/-- common::PARTNER. -/
def PARTNER : Nat := 1

/-- privatelyShareThresholds (AttributionGame_impl.h lines 63-129), row-wise
instantiation: when the input encryption is not Xor the thresholds are
computed in plaintext per touchpoint; in Xor mode the source first checks,
in batch mode only, that the batch size is positive, then computes the
thresholds obliviously per touchpoint.  The secret-shared values are again
modelled by their plaintexts, so both branches reduce to mapping the rule's
threshold computation over every touchpoint of every row. -/
def privatelyShareThresholds (inputEncryption : InputEncryption)
    (usingBatch : Bool) (touchpoints : List (List Touchpoint))
    (attributionRule : AttributionRule) (batchSize : Nat) :
    Except String (List (List (List Nat))) :=
  if inputEncryption ≠ InputEncryption.Xor then
    Except.ok (touchpoints.map (fun touchpointRow =>
      touchpointRow.map attributionRule.computeThresholdsPlaintext))
  else if usingBatch ∧ batchSize = 0 then
    Except.error batchSizeErrorMsg
  else
    Except.ok (touchpoints.map (fun touchpointRow =>
      touchpointRow.map
        (fun tp => attributionRule.computeThresholdsPrivate tp batchSize)))

/-- Modelled from the spec: the static rule catalog entry "last_touch"
(§4.1, §8): its threshold is touchpoint.timestamp + windowSeconds with a
one-day window of 86400s, and a touchpoint is attributable for a conversion
when touchpoint.ts < conversion.ts ≤ threshold.  The rule bodies
(AttributionRule.h) are not part of the analysed sources. -/
def lastTouchRule : AttributionRule :=
  { id := 1
    name := "last_touch"
    isAttributable := fun tp conv thresholds =>
      decide (tp.ts < conv.ts) && thresholds.any (fun t => decide (conv.ts ≤ t))
    computeThresholdsPlaintext := fun tp => [tp.ts + 86400]
    computeThresholdsPrivate := fun tp _ => [tp.ts + 86400] }

/-- Modelled from the spec: the catalog entry "last_click" (§4.1, §8):
like "last_touch" but only click touchpoints are eligible. -/
def lastClickRule : AttributionRule :=
  { id := 2
    name := "last_click"
    isAttributable := fun tp conv thresholds =>
      tp.isClick && decide (tp.ts < conv.ts) &&
        thresholds.any (fun t => decide (conv.ts ≤ t))
    computeThresholdsPlaintext := fun tp => [tp.ts + 86400]
    computeThresholdsPrivate := fun tp _ => [tp.ts + 86400] }

/-- Modelled from the spec: the catalog entry "last_touch_1d" used by the
end-to-end example of §8 (window = 86400s). -/
def lastTouch1dRule : AttributionRule :=
  { lastTouchRule with id := 3, name := "last_touch_1d" }

/-- Modelled from the spec: a fourth catalog entry, "last_click_1d"; the
source comment notes "currently we only support 4 rules". -/
def lastClick1dRule : AttributionRule :=
  { lastClickRule with id := 4, name := "last_click_1d" }

/-- Modelled from the spec: SUPPORTED_ATTRIBUTION_RULES, the fixed closed
rule catalog (§4.1): unique names, unique ids, ids fitting the negotiated
3-bit width. -/
def SUPPORTED_ATTRIBUTION_RULES : List AttributionRule :=
  [lastTouchRule, lastClickRule, lastTouch1dRule, lastClick1dRule]

/-- Modelled from the spec: AttributionRule::fromNameOrThrow — catalog
lookup by name, UnknownRuleError when absent (§4.1). -/
def fromNameOrThrow (name : String) : Except String AttributionRule :=
  match SUPPORTED_ATTRIBUTION_RULES.find? (fun rule => rule.name == name) with
  | some rule => Except.ok rule
  | none => Except.error "Unknown attribution rule name"

/-- Modelled from the spec: AttributionRule::fromIdOrThrow — catalog lookup
by id, InvalidRuleIdError when absent (§4.1). -/
def fromIdOrThrow (id : Nat) : Except String AttributionRule :=
  match SUPPORTED_ATTRIBUTION_RULES.find? (fun rule => rule.id == id) with
  | some rule => Except.ok rule
  | none => Except.error "Invalid attribution rule id"

/-- The publisher's loop of shareAttributionRules: resolve each configured
name through the catalog. -/
def fromNamesOrThrow : List String → Except String (List AttributionRule)
  | [] => Except.ok []
  | name :: rest =>
    match fromNameOrThrow name, fromNamesOrThrow rest with
    | Except.ok rule, Except.ok rules => Except.ok (rule :: rules)
    | Except.error e, _ => Except.error e
    | _, Except.error e => Except.error e

/-- The partner's loop of shareAttributionRules: reconstruct each rule from
a shared id. -/
def fromIdsOrThrow : List Nat → Except String (List AttributionRule)
  | [] => Except.ok []
  | id :: rest =>
    match fromIdOrThrow id, fromIdsOrThrow rest with
    | Except.ok rule, Except.ok rules => Except.ok (rule :: rules)
    | Except.error e, _ => Except.error e
    | _, Except.error e => Except.error e

/-- Width of the shared rule-id field (AttributionGame_impl.h line 156). -/
def attributionRuleIdWidth : Nat := 3

/-- shareAttributionRules (AttributionGame_impl.h lines 131-177).  The
publisher resolves the configured rule names through the catalog; only the
numeric ids, truncated to the 3-bit wire width, are shared; the partner
rebuilds its list by id lookup.  The oblivious exchange is modelled as a
function of the publisher's configuration: both roles' results are computed
from the same name list, the partner's only through the shared ids. -/
def shareAttributionRules (myRole : Nat)
    (attributionRuleNames : List String) :
    Except String (List AttributionRule) :=
  if myRole = PUBLISHER then
    fromNamesOrThrow attributionRuleNames
  else
    match fromNamesOrThrow attributionRuleNames with
    | Except.error e => Except.error e
    | Except.ok publisherRules =>
      fromIdsOrThrow (publisherRules.map
        (fun rule => rule.id % 2 ^ attributionRuleIdWidth))

/-- Error message of the CHECK_LE on the distinct-ad-id count
(AttributionGame_impl.h lines 231-232). -/
def adIdLimitErrorMsg : String :=
  "Number of ad Ids cannot be more than 65,536."

/-- retrieveValidOriginalAdIds (AttributionGame_impl.h lines 179-239),
row-wise plaintext path: collect the set of distinct positive originalAdId
values over all touchpoints of all rows, abort when there are more than
65536 of them, and return them sorted ascending.  (In Xor mode the ad ids
are first opened to the publisher; the collected plaintext values are the
same.)  std::sort is modelled by insertion sort. -/
def retrieveValidOriginalAdIds (touchpoints : List (List Touchpoint)) :
    Except String (List Nat) :=
  let adIdSet :=
    (((touchpoints.flatMap (fun row => row)).map
      (fun tp => tp.originalAdId)).filter (fun adId => 0 < adId)).dedup
  if adIdSet.length ≤ 65536 then
    Except.ok (adIdSet.insertionSort (· ≤ ·))
  else
    Except.error adIdLimitErrorMsg

/-- The map-building loop of replaceAdIdWithCompressedAdId
(AttributionGame_impl.h lines 249-255): compressedAdId is a uint16_t
starting at 1 and incremented per entry, so the stored dense id of the k-th
(0-based) valid original ad id is (1 + k) mod 2^16.  The counter is carried
as a Nat and reduced mod 2^16 where the 16-bit value is stored. -/
def buildCompressedAdIdMap : List Nat → Nat → List (Nat × Nat)
  | [], _ => []
  | adId :: rest, compressedAdId =>
    (adId, compressedAdId % 65536) ::
      buildCompressedAdIdMap rest (compressedAdId + 1)

/-- std::unordered_map::at — lookup that throws when the key is absent. -/
def mapAt (m : List (Nat × Nat)) (key : Nat) : Except String Nat :=
  match m.find? (fun entry => entry.1 == key) with
  | some entry => Except.ok entry.2
  | none => Except.error "unordered_map::at: key not found"

/-- The per-row rewriting loop of replaceAdIdWithCompressedAdId: every
touchpoint with a positive originalAdId gets its adId field replaced by the
dense id from the map; other touchpoints are unchanged. -/
def replaceRow (m : List (Nat × Nat)) :
    List Touchpoint → Except String (List Touchpoint)
  | [] => Except.ok []
  | tp :: rest =>
    match
      (if 0 < tp.originalAdId then
        match mapAt m tp.originalAdId with
        | Except.ok compressed => Except.ok { tp with adId := compressed }
        | Except.error e => Except.error e
      else Except.ok tp),
      replaceRow m rest with
    | Except.ok tp2, Except.ok rest2 => Except.ok (tp2 :: rest2)
    | Except.error e, _ => Except.error e
    | _, Except.error e => Except.error e

/-- The outer loop of replaceAdIdWithCompressedAdId over rows. -/
def replaceRows (m : List (Nat × Nat)) :
    List (List Touchpoint) → Except String (List (List Touchpoint))
  | [] => Except.ok []
  | row :: rest =>
    match replaceRow m row, replaceRows m rest with
    | Except.ok row2, Except.ok rest2 => Except.ok (row2 :: rest2)
    | Except.error e, _ => Except.error e
    | _, Except.error e => Except.error e

/-- replaceAdIdWithCompressedAdId (AttributionGame_impl.h lines 241-277),
row-wise path. -/
def replaceAdIdWithCompressedAdId (touchpoints : List (List Touchpoint))
    (validOriginalAdIds : List Nat) :
    Except String (List (List Touchpoint)) :=
  replaceRows (buildCompressedAdIdMap validOriginalAdIds 1) touchpoints

/-- Little-endian decimal digits of n, with explicit fuel (fuel ≥ n
suffices); structurally recursive so that concrete inputs evaluate. -/
def toDecimalDigits : Nat → Nat → List Nat
  | 0, _ => []
  | fuel + 1, n => if n = 0 then [] else n % 10 :: toDecimalDigits fuel (n / 10)

/-- Value of a little-endian decimal digit list. -/
def ofDecimalDigits : List Nat → Nat
  | [] => 0
  | d :: rest => d + 10 * ofDecimalDigits rest

/-- std::to_string on an unsigned integer: its decimal numeral. -/
def natToString (n : Nat) : String :=
  if n = 0 then "0"
  else String.mk (((toDecimalDigits n n).map Nat.digitChar).reverse)

/-- The persisted-map loop of computeAttributions (AttributionGame_impl.h
lines 553-559): CompressedAdIdToOriginalAdId maps
std::to_string(compressedAdId) — a uint16_t starting at 1 — to the original
ad id, one entry per valid original ad id in ascending order. -/
def buildCompressedAdIdToOriginalAdIdMap :
    List Nat → Nat → List (String × Nat)
  | [], _ => []
  | originalAdId :: rest, compressedAdId =>
    (natToString (compressedAdId % 65536), originalAdId) ::
      buildCompressedAdIdToOriginalAdIdMap rest (compressedAdId + 1)

/-- Lookup in the persisted JSON map by its string key. -/
def jsonLookup (m : List (String × Nat)) (key : String) : Option Nat :=
  (m.find? (fun entry => entry.1 == key)).map (fun entry => entry.2)

/-- Error message of the CHECK_EQ between threshold arrays and touchpoint
arrays (AttributionGame_impl.h lines 590-591). -/
def thresholdArraysErrorMsg : String :=
  "threshold arrays and touchpoint arrays are not the same length."

/-- std::vector::at — bounds-checked indexing, throws std::out_of_range. -/
def listAt (l : List α) (i : Nat) : Except String α :=
  match l[i]? with
  | some a => Except.ok a
  | none => Except.error "vector::at: out_of_range"

/-- The row-by-row V1 loop of computeAttributions (AttributionGame_impl.h
lines 636-645): for i in [start, start + count) run the V1 helper on row i
with the given batch size. -/
def attributionRowsV1 (rule : AttributionRule)
    (tpArrays : List (List Touchpoint))
    (convArrays : List (List Conversion))
    (thresholdArrays : List (List (List Nat))) (batchSize : Nat) :
    Nat → Nat → Except String (List (List Bool))
  | _, 0 => Except.ok []
  | i, count + 1 => do
    let tpRow ← listAt tpArrays i
    let convRow ← listAt convArrays i
    let thRow ← listAt thresholdArrays i
    let row ← computeAttributionsHelper false batchSize tpRow convRow rule
      thRow
    let rest ← attributionRowsV1 rule tpArrays convArrays thresholdArrays
      batchSize (i + 1) count
    Except.ok (row :: rest)

/-- The row-by-row V2 loop of computeAttributions (AttributionGame_impl.h
lines 602-613). -/
def attributionRowsV2 (rule : AttributionRule)
    (tpArrays : List (List Touchpoint))
    (convArrays : List (List Conversion))
    (thresholdArrays : List (List (List Nat))) (batchSize : Nat) :
    Nat → Nat → Except String (List (List AttributionReformattedOutputFmt))
  | _, 0 => Except.ok []
  | i, count + 1 => do
    let tpRow ← listAt tpArrays i
    let convRow ← listAt convArrays i
    let thRow ← listAt thresholdArrays i
    let row ← computeAttributionsHelperV2 false batchSize tpRow convRow
      rule thRow
    let rest ← attributionRowsV2 rule tpArrays convArrays thresholdArrays
      batchSize (i + 1) count
    Except.ok (row :: rest)

/-- Per-rule output of computeAttributions: a V1 bit matrix or a V2 record
matrix, keyed later by rule name. -/
inductive RuleOutput
  | v1 (rows : List (List Bool))
  | v2 (rows : List (List AttributionReformattedOutputFmt))
deriving DecidableEq

/-- Number of user rows in a per-rule output. -/
def RuleOutput.numRows : RuleOutput → Nat
  | RuleOutput.v1 rows => rows.length
  | RuleOutput.v2 rows => rows.length

/-- The per-rule loop of computeAttributions (AttributionGame_impl.h lines
584-664), row-wise path: share thresholds with batchSize = numIds, check
the threshold/touchpoint array lengths, then run the per-row helper loop
for exactly numIds rows, V2 or V1 according to the output-format flag. -/
def attributionRulesLoop (inputEncryption : InputEncryption)
    (useNewOutputFormat : Bool) (tpArrays : List (List Touchpoint))
    (convArrays : List (List Conversion)) (numIds : Nat) :
    List AttributionRule → Except String (List (String × RuleOutput))
  | [] => Except.ok []
  | rule :: rest => do
    let thresholdArrays ← privatelyShareThresholds inputEncryption false
      tpArrays rule numIds
    if thresholdArrays.length ≠ tpArrays.length then
      Except.error thresholdArraysErrorMsg
    else if useNewOutputFormat then do
      let rows ← attributionRowsV2 rule tpArrays convArrays thresholdArrays
        numIds 0 numIds
      let out ← attributionRulesLoop inputEncryption useNewOutputFormat
        tpArrays convArrays numIds rest
      Except.ok ((rule.name, RuleOutput.v2 rows) :: out)
    else do
      let rows ← attributionRowsV1 rule tpArrays convArrays thresholdArrays
        numIds 0 numIds
      let out ← attributionRulesLoop inputEncryption useNewOutputFormat
        tpArrays convArrays numIds rest
      Except.ok ((rule.name, RuleOutput.v1 rows) :: out)

/-- AttributionInputMetrics: the parsed input shard — one id per user row,
row-aligned touchpoint and conversion arrays, and the configured rule
names. -/
structure AttributionInputMetrics where
  ids : List Nat
  touchpointRows : List (List Touchpoint)
  conversionRows : List (List Conversion)
  attributionRuleNames : List String

/-- computeAttributions (AttributionGame_impl.h lines 533-666), row-wise
path with reveal/serialization omitted: the source stores the id count in
a 32-bit variable, uint32_t numIds = ids.size() (line 543), a narrowing
that wraps modulo 2^32; under the new output format the ad ids are
compressed first; the rules are negotiated; then every rule is processed
with batchSize = numIds by `attributionRulesLoop`. -/
def computeAttributions (inputEncryption : InputEncryption)
    (useNewOutputFormat : Bool) (myRole : Nat)
    (inputData : AttributionInputMetrics) :
    Except String (List (String × RuleOutput)) :=
  let numIds := inputData.ids.length % 2 ^ 32
  do
    let touchpoints ←
      if useNewOutputFormat then do
        let validOriginalAdIds ← retrieveValidOriginalAdIds
          inputData.touchpointRows
        replaceAdIdWithCompressedAdId inputData.touchpointRows
          validOriginalAdIds
      else Except.ok inputData.touchpointRows
    let attributionRules ← shareAttributionRules myRole
      inputData.attributionRuleNames
    attributionRulesLoop inputEncryption useNewOutputFormat touchpoints
      inputData.conversionRows numIds attributionRules

theorem scanConv_length (rule : AttributionRule) (conv : Conversion)
    (has : Bool) (l : List (Touchpoint × List Nat)) :
    (scanConv rule conv has l).length = l.length := by
  induction l generalizing has with
  | nil => rfl
  | cons p rest ih => simp [scanConv, ih]

theorem scanConv_of_has (rule : AttributionRule) (conv : Conversion)
    (l : List (Touchpoint × List Nat)) :
    scanConv rule conv true l = List.replicate l.length false := by
  induction l with
  | nil => rfl
  | cons p rest ih =>
    simp [scanConv, List.replicate_succ, ih]

theorem scanConv_eq_firstMarker (rule : AttributionRule) (conv : Conversion)
    (l : List (Touchpoint × List Nat)) :
    scanConv rule conv false l = firstMarker (attrPred rule conv) l := by
  induction l with
  | nil => rfl
  | cons p rest ih =>
    by_cases h : rule.isAttributable p.1 conv p.2 = true
    · simp [scanConv, firstMarker, attrPred, h, scanConv_of_has,
        scanConv_length]
    · simp only [Bool.not_eq_true] at h
      simp [scanConv, firstMarker, attrPred, h, ih]

theorem firstMarker_length (pred : α → Bool) (l : List α) :
    (firstMarker pred l).length = l.length := by
  induction l with
  | nil => rfl
  | cons p rest ih =>
    by_cases h : pred p = true <;> simp [firstMarker, h, ih]

theorem lastMarker_length (pred : α → Bool) (l : List α) :
    (lastMarker pred l).length = l.length := by
  induction l with
  | nil => rfl
  | cons p rest ih => simp [lastMarker, ih]

theorem firstMarker_append_of_any (pred : α → Bool) (l l2 : List α)
    (h : l.any pred = true) :
    firstMarker pred (l ++ l2) =
      firstMarker pred l ++ List.replicate l2.length false := by
  induction l with
  | nil => simp at h
  | cons q qs ihq =>
    by_cases hq : pred q = true
    · rw [List.cons_append]
      simp only [firstMarker, hq, if_true]
      rw [List.length_append, List.replicate_add]
      simp
    · simp only [List.any_cons, Bool.or_eq_true] at h
      rcases h with h | h
      · exact absurd h hq
      · simp only [Bool.not_eq_true] at hq
        simp [firstMarker, hq, ihq h]

theorem firstMarker_append_of_not_any (pred : α → Bool) (l l2 : List α)
    (h : l.any pred = false) :
    firstMarker pred (l ++ l2) =
      firstMarker pred l ++ firstMarker pred l2 := by
  induction l with
  | nil => simp [firstMarker]
  | cons q qs ihq =>
    simp only [List.any_cons, Bool.or_eq_false_iff] at h
    simp [firstMarker, h.1, ihq h.2]

theorem firstMarker_reverse (pred : α → Bool) (l : List α) :
    (firstMarker pred l.reverse).reverse = lastMarker pred l := by
  induction l with
  | nil => rfl
  | cons p rest ih =>
    by_cases h : rest.any pred = true
    · have hrev : rest.reverse.any pred = true := by
        rwa [List.any_reverse]
      rw [List.reverse_cons,
        firstMarker_append_of_any pred rest.reverse [p] hrev]
      simp [lastMarker, h, List.replicate, ih]
    · simp only [Bool.not_eq_true] at h
      have hrev : rest.reverse.any pred = false := by
        rwa [List.any_reverse]
      rw [List.reverse_cons,
        firstMarker_append_of_not_any pred rest.reverse [p] hrev]
      simp [lastMarker, firstMarker, h, ih]

theorem lastMarker_getElem? (pred : α → Bool) (l : List α) (i : Nat)
    (x : α) (hx : l[i]? = some x) :
    (lastMarker pred l)[i]? =
      some (pred x && !((l.drop (i + 1)).any pred)) := by
  induction l generalizing i with
  | nil => simp at hx
  | cons p rest ih =>
    cases i with
    | zero =>
      simp only [List.getElem?_cons_zero, Option.some.injEq] at hx
      subst hx
      simp [lastMarker]
    | succ j =>
      simp only [List.getElem?_cons_succ] at hx
      simpa [lastMarker] using ih j hx

theorem lastMarker_all_false (pred : α → Bool) (l : List α)
    (h : l.any pred = false) :
    lastMarker pred l = List.replicate l.length false := by
  induction l with
  | nil => rfl
  | cons p rest ih =>
    simp only [List.any_cons, Bool.or_eq_false_iff] at h
    simp [lastMarker, h.1, h.2, ih h.2, List.replicate_succ]

theorem count_true_replicate_false (n : Nat) :
    (List.replicate n false).count true = 0 := by
  simp [List.count_replicate]

theorem lastMarker_count_le_one (pred : α → Bool) (l : List α) :
    (lastMarker pred l).count true ≤ 1 := by
  induction l with
  | nil => simp [lastMarker]
  | cons p rest ih =>
    by_cases h : rest.any pred = true
    · simp [lastMarker, h, List.count_cons, ih]
    · simp only [Bool.not_eq_true] at h
      rw [lastMarker, lastMarker_all_false pred rest h, List.count_cons,
        count_true_replicate_false]
      by_cases hp : pred p = true <;> simp [hp, h]

theorem lastMarker_any (pred : α → Bool) (l : List α) :
    (lastMarker pred l).any (fun b => b) = l.any pred := by
  induction l with
  | nil => rfl
  | cons p rest ih =>
    cases hp : pred p <;> cases h : rest.any pred <;>
      simp [lastMarker, hp, h, ih]

theorem scanConvV2_fst (rule : AttributionRule) (conv : Conversion)
    (has : Bool) (a : Nat) (l : List (Touchpoint × List Nat)) :
    (scanConvV2 rule conv has a l).1 = (has || l.any (attrPred rule conv)) := by
  induction l generalizing has a with
  | nil => simp [scanConvV2]
  | cons p rest ih =>
    rw [scanConvV2, ih]
    cases hp : rule.isAttributable p.1 conv p.2 <;> cases has <;>
      simp [attrPred, hp]

theorem scanConvV2_snd_of_has (rule : AttributionRule) (conv : Conversion)
    (a : Nat) (l : List (Touchpoint × List Nat)) :
    (scanConvV2 rule conv true a l).2 = a := by
  induction l generalizing a with
  | nil => rfl
  | cons p rest ih =>
    simp [scanConvV2, ih]

theorem scanConvV2_snd_of_none (rule : AttributionRule) (conv : Conversion)
    (a : Nat) (l : List (Touchpoint × List Nat))
    (h : l.any (attrPred rule conv) = false) :
    (scanConvV2 rule conv false a l).2 = a := by
  induction l generalizing a with
  | nil => rfl
  | cons p rest ih =>
    simp only [List.any_cons, Bool.or_eq_false_iff] at h
    have hp : rule.isAttributable p.1 conv p.2 = false := h.1
    simp [scanConvV2, hp, ih a h.2]

theorem scanConvV2_snd_of_first (rule : AttributionRule) (conv : Conversion)
    (a : Nat) (l : List (Touchpoint × List Nat)) (n : Nat)
    (p : Touchpoint × List Nat) (hp : l[n]? = some p)
    (hbit : (scanConv rule conv false l)[n]? = some true) :
    (scanConvV2 rule conv false a l).2 = p.1.adId := by
  induction l generalizing a n with
  | nil => simp at hp
  | cons q rest ih =>
    cases n with
    | zero =>
      simp only [List.getElem?_cons_zero, Option.some.injEq] at hp
      subst hp
      simp only [scanConv, List.getElem?_cons_zero, Option.some.injEq,
        Bool.not_false, Bool.and_true] at hbit
      simp [scanConvV2, hbit, scanConvV2_snd_of_has]
    | succ j =>
      simp only [List.getElem?_cons_succ] at hp
      rw [scanConv] at hbit
      simp only [List.getElem?_cons_succ] at hbit
      by_cases hq : rule.isAttributable q.1 conv q.2 = true
      · rw [hq] at hbit
        simp only [Bool.not_false, Bool.and_true, Bool.true_or,
          scanConv_of_has] at hbit
        have : j < rest.length := by
          by_contra hlt
          rw [List.getElem?_eq_none (by simpa using Nat.le_of_not_lt hlt)]
            at hbit
          simp [List.length_replicate] at hbit
        rw [List.getElem?_eq_getElem (by simpa using this)] at hbit
        simp [List.getElem_replicate] at hbit
      · simp only [Bool.not_eq_true] at hq
        rw [hq] at hbit
        simp only [Bool.false_and, Bool.false_or] at hbit
        simp [scanConvV2, hq, ih a j hp hbit]

theorem zip_getElem? (l1 : List α) (l2 : List β) (i : Nat) (x : α) (y : β)
    (hx : l1[i]? = some x) (hy : l2[i]? = some y) :
    (l1.zip l2)[i]? = some (x, y) := by
  induction l1 generalizing l2 i with
  | nil => simp at hx
  | cons a as ih =>
    cases l2 with
    | nil => simp at hy
    | cons b bs =>
      cases i with
      | zero =>
        simp only [List.getElem?_cons_zero, Option.some.injEq] at hx hy
        simp [List.zip_cons_cons, hx, hy]
      | succ j =>
        simp only [List.getElem?_cons_succ] at hx hy
        simpa [List.zip_cons_cons] using ih bs j hx hy

theorem reverse_flatMap_reverse (f : γ → List β) (l : List γ) :
    (l.reverse.flatMap f).reverse = l.flatMap (fun c => (f c).reverse) := by
  induction l with
  | nil => rfl
  | cons c cs ih =>
    rw [List.reverse_cons, List.flatMap_append, List.flatMap_cons,
      List.flatMap_nil, List.append_nil, List.reverse_append, ih,
      List.flatMap_cons]

/-- Unfolding of a successful V1 helper run: the output is, conversion by
conversion in input order, the last-attributable marker over the
(touchpoint, threshold) pairs; and when at least one conversion exists the
touchpoint and threshold arrays have equal length. -/
theorem computeAttributionsHelper_ok (usingBatch : Bool) (batchSize : Nat)
    (touchpoints : List Touchpoint) (conversions : List Conversion)
    (rule : AttributionRule) (thresholds : List (List Nat)) (out : List Bool)
    (hok : computeAttributionsHelper usingBatch batchSize touchpoints
      conversions rule thresholds = Except.ok out) :
    out = conversions.flatMap (fun conv =>
        lastMarker (attrPred rule conv) (touchpoints.zip thresholds)) ∧
      (conversions ≠ [] → touchpoints.length = thresholds.length) := by
  rw [computeAttributionsHelper] at hok
  split at hok
  · exact absurd hok (by simp)
  · split at hok
    · exact absurd hok (by simp)
    · next hg2 =>
      simp only [Except.ok.injEq] at hok
      constructor
      · rw [← hok, reverse_flatMap_reverse]
        simp only [scanConv_eq_firstMarker, firstMarker_reverse]
      · intro hne
        by_contra hlen
        exact hg2 ⟨hne, hlen⟩

/-- Unfolding of a successful V2 helper run: one record per conversion in
input order, whose fields come from the final state of the V2 scan. -/
theorem computeAttributionsHelperV2_ok (usingBatch : Bool) (batchSize : Nat)
    (touchpoints : List Touchpoint) (conversions : List Conversion)
    (rule : AttributionRule) (thresholds : List (List Nat))
    (out : List AttributionReformattedOutputFmt)
    (hok : computeAttributionsHelperV2 usingBatch batchSize touchpoints
      conversions rule thresholds = Except.ok out) :
    out = conversions.map (fun conv =>
        let st := scanConvV2 rule conv false 0
          ((touchpoints.zip thresholds).reverse)
        { ad_id := st.2, conv_value := conv.convValue,
          is_attributed := st.1 }) ∧
      (conversions ≠ [] → touchpoints.length = thresholds.length) := by
  rw [computeAttributionsHelperV2] at hok
  split at hok
  · exact absurd hok (by simp)
  · split at hok
    · exact absurd hok (by simp)
    · next hg2 =>
      simp only [Except.ok.injEq] at hok
      constructor
      · rw [← hok, ← List.map_reverse, List.reverse_reverse]
      · intro hne
        by_contra hlen
        exact hg2 ⟨hne, hlen⟩

/-- Indexing into a flat concatenation of uniform-length blocks. -/
theorem flatMap_block_getElem? (g : γ → List Bool) (l : List γ) (T : Nat)
    (hT : ∀ x, (g x).length = T) (c i : Nat) (x : γ)
    (hc : l[c]? = some x) (hi : i < T) :
    (l.flatMap g)[c * T + i]? = (g x)[i]? := by
  induction l generalizing c with
  | nil => simp at hc
  | cons a as ih =>
    cases c with
    | zero =>
      simp only [List.getElem?_cons_zero, Option.some.injEq] at hc
      subst hc
      rw [List.flatMap_cons, Nat.zero_mul, Nat.zero_add,
        List.getElem?_append]
      simp [hT, hi]
    | succ d =>
      simp only [List.getElem?_cons_succ] at hc
      rw [List.flatMap_cons,
        List.getElem?_append_right (by rw [hT]; nlinarith), hT]
      have : (d + 1) * T + i - T = d * T + i := by ring_nf; omega
      rw [this]
      exact ih d hc

/-- Extracting one uniform-length block from a flat concatenation. -/
theorem flatMap_block_drop_take (g : γ → List Bool) (l : List γ) (T : Nat)
    (hT : ∀ x, (g x).length = T) (c : Nat) (x : γ) (hc : l[c]? = some x) :
    ((l.flatMap g).drop (c * T)).take T = g x := by
  induction l generalizing c with
  | nil => simp at hc
  | cons a as ih =>
    cases c with
    | zero =>
      simp only [List.getElem?_cons_zero, Option.some.injEq] at hc
      subst hc
      rw [List.flatMap_cons, Nat.zero_mul, List.drop_zero, ← hT a,
        List.take_left]
    | succ d =>
      simp only [List.getElem?_cons_succ] at hc
      rw [List.flatMap_cons]
      have harith : (d + 1) * T = T + d * T := by ring
      rw [harith, ← List.drop_drop, ← hT a, List.drop_left, hT a]
      exact ih d hc

theorem flatMap_const_nil (l : List γ) :
    l.flatMap (fun _ => ([] : List β)) = [] := by
  induction l with
  | nil => rfl
  | cons a as ih => rw [List.flatMap_cons, List.nil_append, ih]

/-- C1: for every touchpoint array, conversion array, attribution rule and
threshold array accepted by the V1 engine, and for every conversion, at
most one touchpoint ends with isAttributed = true: within the output block
of that conversion the number of true bits is at most 1. -/
theorem at_most_one_attribution (usingBatch : Bool) (batchSize : Nat)
    (touchpoints : List Touchpoint) (conversions : List Conversion)
    (rule : AttributionRule) (thresholds : List (List Nat))
    (out : List Bool) (c : Nat)
    (hok : computeAttributionsHelper usingBatch batchSize touchpoints
      conversions rule thresholds = Except.ok out)
    (hc : c < conversions.length) :
    ((out.drop (c * touchpoints.length)).take touchpoints.length).count
      true ≤ 1 := by
  obtain ⟨hout, hlen⟩ :=
    computeAttributionsHelper_ok usingBatch batchSize touchpoints
      conversions rule thresholds out hok
  have hne : conversions ≠ [] := by
    intro h
    rw [h] at hc
    simp at hc
  have hlen2 : touchpoints.length = thresholds.length := hlen hne
  have hzip : (touchpoints.zip thresholds).length = touchpoints.length := by
    rw [List.length_zip, hlen2, Nat.min_self]
  have hT : ∀ conv : Conversion,
      (lastMarker (attrPred rule conv) (touchpoints.zip thresholds)).length =
        touchpoints.length := fun conv => by
    rw [lastMarker_length, hzip]
  have hgc : conversions[c]? = some conversions[c] :=
    List.getElem?_eq_getElem hc
  rw [hout, flatMap_block_drop_take _ _ touchpoints.length hT c _ hgc]
  exact lastMarker_count_le_one _ _

/-- Witness for C1 at a concrete input: two attributable touchpoints,
one conversion — exactly one true bit. -/
theorem at_most_one_attribution_witness :
    ((([false, true] : List Bool).drop
        (0 * ([⟨0, false, 100, 10, 0⟩,
          ⟨1, false, 300, 20, 0⟩] : List Touchpoint).length)).take
      ([⟨0, false, 100, 10, 0⟩,
        ⟨1, false, 300, 20, 0⟩] : List Touchpoint).length).count true ≤ 1 :=
  at_most_one_attribution false 1
    [⟨0, false, 100, 10, 0⟩, ⟨1, false, 300, 20, 0⟩] [⟨350, 5⟩]
    lastTouchRule [[86500], [86700]] [false, true] 0 rfl (by decide)

/-- C8: with an empty touchpoint array or an empty conversion array both
attribution helpers terminate without error and no record carries an
attribution: V1 returns the empty bit vector and every V2 record has
is_attributed = false. -/
theorem empty_capacity_safe (usingBatch : Bool) (batchSize : Nat)
    (touchpoints : List Touchpoint) (conversions : List Conversion)
    (rule : AttributionRule) (thresholds : List (List Nat))
    (hbs : usingBatch = true → 0 < batchSize)
    (hlen : touchpoints.length = thresholds.length)
    (hempty : touchpoints = [] ∨ conversions = []) :
    computeAttributionsHelper usingBatch batchSize touchpoints conversions
        rule thresholds = Except.ok [] ∧
      ∃ out2,
        computeAttributionsHelperV2 usingBatch batchSize touchpoints
            conversions rule thresholds = Except.ok out2 ∧
          ∀ r ∈ out2, r.is_attributed = false := by
  have hg1 : ¬(usingBatch = true ∧ batchSize = 0) := by
    rintro ⟨h1, h2⟩
    have := hbs h1
    omega
  have hg2 : ¬(conversions ≠ [] ∧
      touchpoints.length ≠ thresholds.length) := by
    rintro ⟨_, hne⟩
    exact hne hlen
  constructor
  · rw [computeAttributionsHelper, if_neg hg1, if_neg hg2]
    rcases hempty with h | h
    · subst h
      simp only [List.zip_nil_left, List.reverse_nil, scanConv,
        flatMap_const_nil, List.reverse_nil]
    · subst h
      simp
  · rw [computeAttributionsHelperV2, if_neg hg1, if_neg hg2]
    refine ⟨_, rfl, ?_⟩
    intro r hr
    rcases hempty with h | h
    · subst h
      rw [List.mem_reverse, List.mem_map] at hr
      obtain ⟨conv, _, hconv⟩ := hr
      rw [← hconv]
      simp [List.zip_nil_left, scanConvV2]
    · subst h
      simp at hr

/-- Witness for C8 at a concrete input: empty touchpoints, one
conversion. -/
theorem empty_capacity_safe_witness :
    computeAttributionsHelper false 1 [] [⟨350, 5⟩] lastTouchRule [] =
        Except.ok [] ∧
      ∃ out2,
        computeAttributionsHelperV2 false 1 [] [⟨350, 5⟩] lastTouchRule [] =
            Except.ok out2 ∧
          ∀ r ∈ out2, r.is_attributed = false :=
  empty_capacity_safe false 1 [] [⟨350, 5⟩] lastTouchRule []
    (by decide) (by decide) (Or.inl rfl)

/-- C9: in every record returned by the V2 helper, is_attributed = false
implies ad_id = 0 — the attributed ad id starts at 0 and is only changed by
a mux whose condition also sets is_attributed. -/
theorem unattributed_record_has_zero_ad_id (usingBatch : Bool)
    (batchSize : Nat) (touchpoints : List Touchpoint)
    (conversions : List Conversion) (rule : AttributionRule)
    (thresholds : List (List Nat))
    (out2 : List AttributionReformattedOutputFmt)
    (r : AttributionReformattedOutputFmt)
    (hok : computeAttributionsHelperV2 usingBatch batchSize touchpoints
      conversions rule thresholds = Except.ok out2)
    (hr : r ∈ out2) (hfalse : r.is_attributed = false) :
    r.ad_id = 0 := by
  obtain ⟨hout, _⟩ :=
    computeAttributionsHelperV2_ok usingBatch batchSize touchpoints
      conversions rule thresholds out2 hok
  subst hout
  rw [List.mem_map] at hr
  obtain ⟨conv, _, hconv⟩ := hr
  subst hconv
  simp only at hfalse
  rw [scanConvV2_fst, Bool.false_or] at hfalse
  simpa using scanConvV2_snd_of_none rule conv 0 _ hfalse

/-- Witness for C9 at a concrete input: a conversion before its touchpoint
is unattributed and its record carries ad_id = 0. -/
theorem unattributed_record_has_zero_ad_id_witness :
    ({ ad_id := 0, conv_value := 5, is_attributed := false } :
      AttributionReformattedOutputFmt).ad_id = 0 :=
  unattributed_record_has_zero_ad_id false 1 [⟨0, false, 400, 10, 0⟩]
    [⟨350, 5⟩] lastTouchRule [[86800]]
    [{ ad_id := 0, conv_value := 5, is_attributed := false }]
    { ad_id := 0, conv_value := 5, is_attributed := false }
    rfl (by decide) (by decide)

theorem zip_getElem?_inv (l1 : List α) (l2 : List β) (i : Nat)
    (p : α × β) (hp : (l1.zip l2)[i]? = some p) :
    l1[i]? = some p.1 ∧ l2[i]? = some p.2 := by
  induction l1 generalizing l2 i with
  | nil => simp at hp
  | cons a as ih =>
    cases l2 with
    | nil => simp at hp
    | cons b bs =>
      cases i with
      | zero =>
        rw [List.zip_cons_cons] at hp
        simp only [List.getElem?_cons_zero, Option.some.injEq] at hp
        subst hp
        simp
      | succ j =>
        rw [List.zip_cons_cons] at hp
        simp only [List.getElem?_cons_succ] at hp ⊢
        exact ih bs j hp

theorem any_drop_eq_false_iff (p : α → Bool) (l : List α) (k : Nat) :
    (l.drop k).any p = false ↔
      ∀ j x, k ≤ j → l[j]? = some x → p x = false := by
  rw [List.any_eq_false]
  constructor
  · intro h j x hk hx
    have hmem : x ∈ l.drop k := by
      have : (l.drop k)[j - k]? = some x := by
        rw [List.getElem?_drop]
        rwa [Nat.add_sub_cancel' hk]
      exact List.getElem?_mem this
    have := h x hmem
    simpa using this
  · intro h x hx
    obtain ⟨m, hm⟩ := List.mem_iff_getElem?.mp hx
    rw [List.getElem?_drop] at hm
    have := h (k + m) x (Nat.le_add_right k m) hm
    simp [this]

/-- C2: for every conversion, among the touchpoints on which the rule's
isAttributable predicate holds, the engine attributes exactly the one with
the largest timestamp — the last such index of the (ascending-by-timestamp)
touchpoint array, the one visited first in the reverse scan — and every
other touchpoint, in particular every older attributable one, gets
isAttributed = false. -/
theorem last_touch_wins (usingBatch : Bool) (batchSize : Nat)
    (touchpoints : List Touchpoint) (conversions : List Conversion)
    (rule : AttributionRule) (thresholds : List (List Nat))
    (out : List Bool) (c i : Nat) (conv : Conversion) (tpi : Touchpoint)
    (thi : List Nat)
    (hok : computeAttributionsHelper usingBatch batchSize touchpoints
      conversions rule thresholds = Except.ok out)
    (hsorted : List.Pairwise (fun a b => a.ts ≤ b.ts) touchpoints)
    (hc : conversions[c]? = some conv)
    (hi : touchpoints[i]? = some tpi)
    (hthi : thresholds[i]? = some thi)
    (hattr : rule.isAttributable tpi conv thi = true)
    (hlast : ∀ (j : Nat) (tpj : Touchpoint) (thj : List Nat), i < j →
      touchpoints[j]? = some tpj → thresholds[j]? = some thj →
      rule.isAttributable tpj conv thj = false) :
    out[c * touchpoints.length + i]? = some true ∧
      (∀ j, j < touchpoints.length → j ≠ i →
        out[c * touchpoints.length + j]? = some false) ∧
      (∀ (j : Nat) (tpj : Touchpoint) (thj : List Nat),
        touchpoints[j]? = some tpj → thresholds[j]? = some thj →
        rule.isAttributable tpj conv thj = true → tpj.ts ≤ tpi.ts) := by
  obtain ⟨hout, hlen⟩ :=
    computeAttributionsHelper_ok usingBatch batchSize touchpoints
      conversions rule thresholds out hok
  have hne : conversions ≠ [] := by
    intro h
    rw [h] at hc
    simp at hc
  have hlen2 : touchpoints.length = thresholds.length := hlen hne
  have hzip : (touchpoints.zip thresholds).length = touchpoints.length := by
    rw [List.length_zip, hlen2, Nat.min_self]
  have hT : ∀ conv2 : Conversion,
      (lastMarker (attrPred rule conv2)
        (touchpoints.zip thresholds)).length = touchpoints.length :=
    fun conv2 => by rw [lastMarker_length, hzip]
  have hiT : i < touchpoints.length := by
    obtain ⟨h, _⟩ := List.getElem?_eq_some_iff.mp hi
    exact h
  have hzi : (touchpoints.zip thresholds)[i]? = some (tpi, thi) :=
    zip_getElem? touchpoints thresholds i tpi thi hi hthi
  have hbit : ∀ j, j < touchpoints.length →
      out[c * touchpoints.length + j]? =
        (lastMarker (attrPred rule conv) (touchpoints.zip thresholds))[j]? :=
    fun j hj => by
      rw [hout]
      exact flatMap_block_getElem? _ conversions touchpoints.length hT c j
        conv hc hj
  have hdropi : ((touchpoints.zip thresholds).drop (i + 1)).any
      (attrPred rule conv) = false := by
    rw [any_drop_eq_false_iff]
    intro j x hk hx
    obtain ⟨hx1, hx2⟩ := zip_getElem?_inv touchpoints thresholds j x hx
    exact hlast j x.1 x.2 (Nat.lt_of_succ_le hk) hx1 hx2
  refine ⟨?_, ?_, ?_⟩
  · rw [hbit i hiT, lastMarker_getElem? _ _ i (tpi, thi) hzi, hdropi]
    simp [attrPred, hattr]
  · intro j hj hne2
    have hjz : j < (touchpoints.zip thresholds).length := by rwa [hzip]
    obtain ⟨x, hx⟩ : ∃ x, (touchpoints.zip thresholds)[j]? = some x :=
      ⟨_, List.getElem?_eq_getElem hjz⟩
    obtain ⟨hx1, hx2⟩ := zip_getElem?_inv touchpoints thresholds j x hx
    rw [hbit j hj, lastMarker_getElem? _ _ j x hx]
    rcases Nat.lt_or_ge j i with hlt | hge
    · have hmem : (tpi, thi) ∈ (touchpoints.zip thresholds).drop (j + 1) := by
        refine List.getElem?_mem (n := i - (j + 1)) ?_
        rw [List.getElem?_drop, Nat.add_sub_cancel' (Nat.succ_le_of_lt hlt)]
        exact hzi
      have hany : ((touchpoints.zip thresholds).drop (j + 1)).any
          (attrPred rule conv) = true :=
        List.any_eq_true.mpr ⟨(tpi, thi), hmem, by simp [attrPred, hattr]⟩
      rw [hany]
      simp
    · have hgt : i < j := Nat.lt_of_le_of_ne hge (fun h => hne2 h.symm)
      have : rule.isAttributable x.1 conv x.2 = false :=
        hlast j x.1 x.2 hgt hx1 hx2
      simp [attrPred, this]
  · intro j tpj thj hj hthj hattrj
    have hjT : j < touchpoints.length := by
      obtain ⟨h, _⟩ := List.getElem?_eq_some_iff.mp hj
      exact h
    rcases Nat.lt_or_ge i j with hlt | hge
    · exact absurd hattrj (by simp [hlast j tpj thj hlt hj hthj])
    · rcases Nat.eq_or_lt_of_le hge with heq | hlt2
      · rw [heq] at hj
        rw [hj] at hi
        simp only [Option.some.injEq] at hi
        rw [hi]
      · have := List.pairwise_iff_getElem.mp hsorted j i hjT hiT hlt2
        obtain ⟨_, hje⟩ := List.getElem?_eq_some_iff.mp hj
        obtain ⟨_, hie⟩ := List.getElem?_eq_some_iff.mp hi
        rw [hje, hie] at this
        exact this

/-- Witness for C2: the spec's last-touch example — views at ts 100, 200,
300, window 86400s, conversion at ts 350: the ts=300 touchpoint (index 2)
is attributed and the older ones are not. -/
theorem last_touch_wins_witness :
    (([false, false, true] : List Bool))[0 * 3 + 2]? = some true ∧
      (∀ j, j < ([⟨0, false, 100, 10, 0⟩, ⟨1, false, 200, 20, 0⟩,
          ⟨2, false, 300, 30, 0⟩] : List Touchpoint).length → j ≠ 2 →
        (([false, false, true] : List Bool))[0 *
          ([⟨0, false, 100, 10, 0⟩, ⟨1, false, 200, 20, 0⟩,
            ⟨2, false, 300, 30, 0⟩] : List Touchpoint).length + j]? =
          some false) ∧
      (∀ (j : Nat) (tpj : Touchpoint) (thj : List Nat),
        ([⟨0, false, 100, 10, 0⟩, ⟨1, false, 200, 20, 0⟩,
          ⟨2, false, 300, 30, 0⟩] : List Touchpoint)[j]? = some tpj →
        ([[86500], [86600], [86700]] : List (List Nat))[j]? = some thj →
        lastTouchRule.isAttributable tpj ⟨350, 5⟩ thj = true →
        tpj.ts ≤ (⟨2, false, 300, 30, 0⟩ : Touchpoint).ts) := by
  have h := last_touch_wins false 1
    [⟨0, false, 100, 10, 0⟩, ⟨1, false, 200, 20, 0⟩, ⟨2, false, 300, 30, 0⟩]
    [⟨350, 5⟩] lastTouchRule [[86500], [86600], [86700]]
    [false, false, true] 0 2 ⟨350, 5⟩ ⟨2, false, 300, 30, 0⟩ [86700]
    rfl (by decide) (by decide) (by decide) (by decide) (by decide)
    (by
      intro j tpj thj hij hj hthj
      have hjlt : j < 3 := by
        by_contra hle
        rw [List.getElem?_eq_none (by simpa using Nat.le_of_not_lt hle)]
          at hj
        simp at hj
      omega)
  simpa using h

/-- C3: the V1 and V2 engines agree — for every accepted input and every
conversion, the V2 record's is_attributed bit is the OR over all
touchpoints of the V1 per-pair bits of that conversion, its ad_id is the
adId of the touchpoint whose V1 bit is true, or the initial value 0 when
every V1 bit of the conversion is false, and it carries the conversion's
value. -/
theorem v1_v2_agreement (usingBatch : Bool) (batchSize : Nat)
    (touchpoints : List Touchpoint) (conversions : List Conversion)
    (rule : AttributionRule) (thresholds : List (List Nat))
    (out1 : List Bool) (out2 : List AttributionReformattedOutputFmt)
    (c : Nat) (conv : Conversion) (rec : AttributionReformattedOutputFmt)
    (hok1 : computeAttributionsHelper usingBatch batchSize touchpoints
      conversions rule thresholds = Except.ok out1)
    (hok2 : computeAttributionsHelperV2 usingBatch batchSize touchpoints
      conversions rule thresholds = Except.ok out2)
    (hc : conversions[c]? = some conv) (hrec : out2[c]? = some rec) :
    (rec.is_attributed = true ↔ ∃ i, i < touchpoints.length ∧
        out1[c * touchpoints.length + i]? = some true) ∧
      (∀ (i : Nat) (tpi : Touchpoint), i < touchpoints.length →
        out1[c * touchpoints.length + i]? = some true →
        touchpoints[i]? = some tpi → rec.ad_id = tpi.adId) ∧
      ((∀ i, i < touchpoints.length →
          out1[c * touchpoints.length + i]? = some false) →
        rec.ad_id = 0) ∧
      rec.conv_value = conv.convValue := by
  obtain ⟨hout1, hlen⟩ :=
    computeAttributionsHelper_ok usingBatch batchSize touchpoints
      conversions rule thresholds out1 hok1
  obtain ⟨hout2, _⟩ :=
    computeAttributionsHelperV2_ok usingBatch batchSize touchpoints
      conversions rule thresholds out2 hok2
  have hne : conversions ≠ [] := by
    intro h
    rw [h] at hc
    simp at hc
  have hlen2 : touchpoints.length = thresholds.length := hlen hne
  have hzip : (touchpoints.zip thresholds).length = touchpoints.length := by
    rw [List.length_zip, hlen2, Nat.min_self]
  have hT : ∀ conv2 : Conversion,
      (lastMarker (attrPred rule conv2)
        (touchpoints.zip thresholds)).length = touchpoints.length :=
    fun conv2 => by rw [lastMarker_length, hzip]
  have hrec2 : rec =
      { ad_id := (scanConvV2 rule conv false 0
          ((touchpoints.zip thresholds).reverse)).2,
        conv_value := conv.convValue,
        is_attributed := (scanConvV2 rule conv false 0
          ((touchpoints.zip thresholds).reverse)).1 } := by
    rw [hout2, List.getElem?_map, hc] at hrec
    simp only [Option.map_some] at hrec
    exact (Option.some.injEq _ _).mp hrec.symm
  have hisattr : rec.is_attributed =
      (touchpoints.zip thresholds).any (attrPred rule conv) := by
    rw [hrec2]
    show (scanConvV2 rule conv false 0
      ((touchpoints.zip thresholds).reverse)).1 = _
    rw [scanConvV2_fst, Bool.false_or, List.any_reverse]
  have had : rec.ad_id = (scanConvV2 rule conv false 0
      ((touchpoints.zip thresholds).reverse)).2 := by
    rw [hrec2]
  have hbit : ∀ j, j < touchpoints.length →
      out1[c * touchpoints.length + j]? =
        (lastMarker (attrPred rule conv) (touchpoints.zip thresholds))[j]? :=
    fun j hj => by
      rw [hout1]
      exact flatMap_block_getElem? _ conversions touchpoints.length hT c j
        conv hc hj
  have hany_iff :
      (touchpoints.zip thresholds).any (attrPred rule conv) = true ↔
        ∃ i, i < touchpoints.length ∧
          (lastMarker (attrPred rule conv)
            (touchpoints.zip thresholds))[i]? = some true := by
    rw [← lastMarker_any]
    constructor
    · intro h
      obtain ⟨b, hb, hbt⟩ := List.any_eq_true.mp h
      obtain ⟨i, hi⟩ := List.mem_iff_getElem?.mp hb
      have hiT : i < (lastMarker (attrPred rule conv)
          (touchpoints.zip thresholds)).length :=
        (List.getElem?_eq_some_iff.mp hi).1
      rw [lastMarker_length, hzip] at hiT
      have hbt2 : b = true := hbt
      refine ⟨i, hiT, ?_⟩
      rw [hi, hbt2]
    · rintro ⟨i, hiT, hb⟩
      exact List.any_eq_true.mpr ⟨true, List.getElem?_mem hb, rfl⟩
  have hsnd : ∀ (i : Nat) (x : Touchpoint × List Nat),
      i < touchpoints.length →
      (lastMarker (attrPred rule conv)
        (touchpoints.zip thresholds))[i]? = some true →
      (touchpoints.zip thresholds)[i]? = some x →
      (scanConvV2 rule conv false 0
        ((touchpoints.zip thresholds).reverse)).2 = x.1.adId := by
    intro i x hiT hb hzi
    have hizip : i < (touchpoints.zip thresholds).length := by rwa [hzip]
    have hfm : (firstMarker (attrPred rule conv)
        ((touchpoints.zip thresholds).reverse)).reverse[i]? = some true := by
      rwa [firstMarker_reverse]
    have hlenfm : (firstMarker (attrPred rule conv)
        ((touchpoints.zip thresholds).reverse)).length =
          (touchpoints.zip thresholds).length := by
      rw [firstMarker_length, List.length_reverse]
    rw [List.getElem?_reverse (by rw [hlenfm]; exact hizip), hlenfm] at hfm
    have hrevel : ((touchpoints.zip thresholds).reverse)[
        (touchpoints.zip thresholds).length - 1 - i]? = some x := by
      rw [List.getElem?_reverse (by omega)]
      have harith : (touchpoints.zip thresholds).length - 1 -
          ((touchpoints.zip thresholds).length - 1 - i) = i := by omega
      rw [harith]
      exact hzi
    refine scanConvV2_snd_of_first rule conv 0
      ((touchpoints.zip thresholds).reverse)
      ((touchpoints.zip thresholds).length - 1 - i) x hrevel ?_
    rw [scanConv_eq_firstMarker]
    exact hfm
  refine ⟨?_, ?_, ?_, ?_⟩
  · rw [hisattr]
    constructor
    · intro h
      obtain ⟨i, hiT, hb⟩ := hany_iff.mp h
      exact ⟨i, hiT, by rw [hbit i hiT]; exact hb⟩
    · rintro ⟨i, hiT, hb⟩
      exact hany_iff.mpr ⟨i, hiT, by rw [← hbit i hiT]; exact hb⟩
  · intro i tpi hiT hb htp
    have hizip : i < (touchpoints.zip thresholds).length := by rwa [hzip]
    obtain ⟨x, hx⟩ : ∃ x, (touchpoints.zip thresholds)[i]? = some x :=
      ⟨_, List.getElem?_eq_getElem hizip⟩
    have hx1 := (zip_getElem?_inv touchpoints thresholds i x hx).1
    have hxeq : x.1 = tpi := by
      rw [htp] at hx1
      exact ((Option.some.injEq _ _).mp hx1).symm
    rw [had, hsnd i x hiT (by rw [← hbit i hiT]; exact hb) hx, hxeq]
  · intro hall
    have hanyf :
        (touchpoints.zip thresholds).any (attrPred rule conv) = false := by
      cases hcase :
          (touchpoints.zip thresholds).any (attrPred rule conv) with
      | false => rfl
      | true =>
        obtain ⟨i, hiT, hb⟩ := hany_iff.mp hcase
        have hfalse := hall i hiT
        rw [hbit i hiT, hb] at hfalse
        simp at hfalse
    rw [had]
    apply scanConvV2_snd_of_none
    rwa [List.any_reverse]
  · rw [hrec2]

/-- Witness for C3 at a concrete input: the V2 record's ad_id is the adId
of the unique V1-attributed touchpoint. -/
theorem v1_v2_agreement_witness :
    ({ ad_id := 30, conv_value := 5, is_attributed := true } :
        AttributionReformattedOutputFmt).ad_id =
      (⟨1, false, 300, 30, 0⟩ : Touchpoint).adId :=
  (v1_v2_agreement false 1
    [⟨0, false, 100, 10, 0⟩, ⟨1, false, 300, 30, 0⟩] [⟨350, 5⟩]
    lastTouchRule [[86500], [86700]] [false, true]
    [{ ad_id := 30, conv_value := 5, is_attributed := true }] 0 ⟨350, 5⟩
    { ad_id := 30, conv_value := 5, is_attributed := true }
    rfl rfl (by decide) (by decide)).2.1 1 ⟨1, false, 300, 30, 0⟩
    (by decide) (by decide) (by decide)

/-- C7 counterexample: in batched mode with batch size 0 but plaintext
input encryption, threshold computation does NOT raise the batch-size
error — it succeeds.  (The guard in privatelyShareThresholds sits inside
the Xor input-encryption branch only.) -/
theorem batch_size_guard_counterexample :
    privatelyShareThresholds InputEncryption.Plaintext true
        [[⟨0, false, 100, 10, 0⟩]] lastTouchRule 0 =
      Except.ok [[[86500]]] := rfl

/-- C7 (amended): in batched mode with batch size 0 both attribution
helpers raise the batch-size configuration error, and threshold
computation raises it exactly when the input encryption is Xor
(secret-shared) — with non-Xor encryption it succeeds; with a positive
batch size, or in non-batched mode, none of the three operations ever
raises that error. -/
theorem batch_size_guard_behavior (inputEncryption : InputEncryption)
    (usingBatch : Bool) (batchSize : Nat) (touchpoints : List Touchpoint)
    (conversions : List Conversion) (rule : AttributionRule)
    (thresholds : List (List Nat))
    (touchpointRows : List (List Touchpoint)) :
    (usingBatch = true → batchSize = 0 →
      computeAttributionsHelper usingBatch batchSize touchpoints
          conversions rule thresholds = Except.error batchSizeErrorMsg ∧
        computeAttributionsHelperV2 usingBatch batchSize touchpoints
          conversions rule thresholds = Except.error batchSizeErrorMsg ∧
        (inputEncryption = InputEncryption.Xor →
          privatelyShareThresholds inputEncryption usingBatch
            touchpointRows rule batchSize =
              Except.error batchSizeErrorMsg) ∧
        (inputEncryption ≠ InputEncryption.Xor →
          ∃ v, privatelyShareThresholds inputEncryption usingBatch
            touchpointRows rule batchSize = Except.ok v)) ∧
      (0 < batchSize →
        computeAttributionsHelper usingBatch batchSize touchpoints
            conversions rule thresholds ≠ Except.error batchSizeErrorMsg ∧
          computeAttributionsHelperV2 usingBatch batchSize touchpoints
            conversions rule thresholds ≠ Except.error batchSizeErrorMsg ∧
          privatelyShareThresholds inputEncryption usingBatch touchpointRows
            rule batchSize ≠ Except.error batchSizeErrorMsg) ∧
      (usingBatch = false →
        computeAttributionsHelper usingBatch batchSize touchpoints
            conversions rule thresholds ≠ Except.error batchSizeErrorMsg ∧
          computeAttributionsHelperV2 usingBatch batchSize touchpoints
            conversions rule thresholds ≠ Except.error batchSizeErrorMsg ∧
          privatelyShareThresholds inputEncryption usingBatch touchpointRows
            rule batchSize ≠ Except.error batchSizeErrorMsg) := by
  have hstr : thresholdLengthErrorMsg ≠ batchSizeErrorMsg := by decide
  refine ⟨?_, ?_, ?_⟩
  · intro hub hbs0
    subst hub
    subst hbs0
    refine ⟨?_, ?_, ?_, ?_⟩
    · rw [computeAttributionsHelper, if_pos ⟨rfl, rfl⟩]
    · rw [computeAttributionsHelperV2, if_pos ⟨rfl, rfl⟩]
    · intro hxor
      subst hxor
      rw [privatelyShareThresholds, if_neg (by simp), if_pos ⟨rfl, rfl⟩]
    · intro hnxor
      rw [privatelyShareThresholds, if_pos hnxor]
      exact ⟨_, rfl⟩
  · intro hpos
    have hg1 : ¬(usingBatch = true ∧ batchSize = 0) := by
      rintro ⟨_, h⟩
      omega
    refine ⟨?_, ?_, ?_⟩
    · rw [computeAttributionsHelper, if_neg hg1]
      split
      · intro h
        exact absurd ((Except.error.injEq _ _).mp h) hstr
      · simp
    · rw [computeAttributionsHelperV2, if_neg hg1]
      split
      · intro h
        exact absurd ((Except.error.injEq _ _).mp h) hstr
      · simp
    · rw [privatelyShareThresholds]
      split <;> simp
  · intro hub
    subst hub
    have hg1 : ¬(false = true ∧ batchSize = 0) := by
      rintro ⟨h, _⟩
      exact Bool.false_ne_true h
    refine ⟨?_, ?_, ?_⟩
    · rw [computeAttributionsHelper, if_neg hg1]
      split
      · intro h
        exact absurd ((Except.error.injEq _ _).mp h) hstr
      · simp
    · rw [computeAttributionsHelperV2, if_neg hg1]
      split
      · intro h
        exact absurd ((Except.error.injEq _ _).mp h) hstr
      · simp
    · rw [privatelyShareThresholds]
      split <;> simp

/-- Witness for C7's amended statement at a concrete input: batch mode with
batch size 0 makes the V1 helper raise the batch-size error. -/
theorem batch_size_guard_behavior_witness :
    computeAttributionsHelper true 0 [] [] lastTouchRule [] =
      Except.error batchSizeErrorMsg :=
  ((batch_size_guard_behavior InputEncryption.Xor true 0 [] [] lastTouchRule
    [] []).1 rfl rfl).1

theorem supported_rule_id_roundtrip (r : AttributionRule)
    (hr : r ∈ SUPPORTED_ATTRIBUTION_RULES) :
    fromIdOrThrow r.id = Except.ok r ∧
      fromIdOrThrow (r.id % 2 ^ attributionRuleIdWidth) = Except.ok r ∧
      r.id < 2 ^ attributionRuleIdWidth := by
  simp only [SUPPORTED_ATTRIBUTION_RULES, List.mem_cons,
    List.not_mem_nil, or_false] at hr
  rcases hr with rfl | rfl | rfl | rfl
  · exact ⟨rfl, rfl, by decide⟩
  · exact ⟨rfl, rfl, by decide⟩
  · exact ⟨rfl, rfl, by decide⟩
  · exact ⟨rfl, rfl, by decide⟩

theorem fromNameOrThrow_mem (name : String) (r : AttributionRule)
    (h : fromNameOrThrow name = Except.ok r) :
    r ∈ SUPPORTED_ATTRIBUTION_RULES := by
  rw [fromNameOrThrow] at h
  cases hfind : SUPPORTED_ATTRIBUTION_RULES.find?
      (fun rule => rule.name == name) with
  | none => rw [hfind] at h; exact absurd h (by simp)
  | some r2 =>
    rw [hfind] at h
    simp only [Except.ok.injEq] at h
    subst h
    exact List.mem_of_find?_eq_some hfind

theorem fromNamesOrThrow_forall_mem (names : List String)
    (rules : List AttributionRule)
    (h : fromNamesOrThrow names = Except.ok rules) :
    ∀ r ∈ rules, r ∈ SUPPORTED_ATTRIBUTION_RULES := by
  induction names generalizing rules with
  | nil =>
    rw [fromNamesOrThrow] at h
    simp only [Except.ok.injEq] at h
    subst h
    simp
  | cons name rest ih =>
    rw [fromNamesOrThrow] at h
    cases h1 : fromNameOrThrow name with
    | error e => rw [h1] at h; exact absurd h (by simp)
    | ok r1 =>
      cases h2 : fromNamesOrThrow rest with
      | error e => rw [h1, h2] at h; exact absurd h (by simp)
      | ok rs =>
        rw [h1, h2] at h
        simp only [Except.ok.injEq] at h
        subst h
        intro r hr
        rcases List.mem_cons.mp hr with rfl | hr2
        · exact fromNameOrThrow_mem name r h1
        · exact ih rs h2 r hr2

theorem fromIdsOrThrow_of_roundtrip (rules : List AttributionRule)
    (h : ∀ r ∈ rules,
      fromIdOrThrow (r.id % 2 ^ attributionRuleIdWidth) = Except.ok r) :
    fromIdsOrThrow (rules.map
      (fun rule => rule.id % 2 ^ attributionRuleIdWidth)) =
        Except.ok rules := by
  induction rules with
  | nil => rfl
  | cons r rest ih =>
    rw [List.map_cons, fromIdsOrThrow, h r (List.mem_cons_self r rest),
      ih (fun r2 hr2 => h r2 (List.mem_cons_of_mem r hr2))]

/-- C6: rule negotiation yields identical ordered rule lists on both
parties — whenever the publisher's name resolution succeeds, the partner's
reconstruction from the shared 3-bit ids produces exactly the same rule
list (hence the same length, and the same id and name at every position);
looking a rule up by its own id returns that rule; and every active rule's
id fits the 3-bit wire field. -/
theorem rule_negotiation_agreement (attributionRuleNames : List String)
    (rules : List AttributionRule)
    (hpub : shareAttributionRules PUBLISHER attributionRuleNames =
      Except.ok rules) :
    shareAttributionRules PARTNER attributionRuleNames = Except.ok rules ∧
      (∀ (name : String) (r : AttributionRule),
        fromNameOrThrow name = Except.ok r →
          fromIdOrThrow r.id = Except.ok r) ∧
      ∀ r ∈ rules, r.id < 2 ^ attributionRuleIdWidth := by
  rw [shareAttributionRules, if_pos rfl] at hpub
  have hmem := fromNamesOrThrow_forall_mem attributionRuleNames rules hpub
  refine ⟨?_, ?_, ?_⟩
  · rw [shareAttributionRules, if_neg (by decide), hpub]
    exact fromIdsOrThrow_of_roundtrip rules
      (fun r hr => (supported_rule_id_roundtrip r (hmem r hr)).2.1)
  · intro name r hname
    exact (supported_rule_id_roundtrip r
      (fromNameOrThrow_mem name r hname)).1
  · intro r hr
    exact (supported_rule_id_roundtrip r (hmem r hr)).2.2

/-- Witness for C6 at a concrete input: negotiating ["last_touch",
"last_click"] gives the partner exactly the publisher's list. -/
theorem rule_negotiation_agreement_witness :
    shareAttributionRules PARTNER ["last_touch", "last_click"] =
      Except.ok [lastTouchRule, lastClickRule] :=
  (rule_negotiation_agreement ["last_touch", "last_click"]
    [lastTouchRule, lastClickRule] rfl).1

theorem ofDecimalDigits_toDecimalDigits (fuel : Nat) :
    ∀ n : Nat, n ≤ fuel →
      ofDecimalDigits (toDecimalDigits fuel n) = n := by
  induction fuel with
  | zero =>
    intro n hn
    have : n = 0 := Nat.le_zero.mp hn
    subst this
    rfl
  | succ f ih =>
    intro n hn
    by_cases h0 : n = 0
    · subst h0
      simp [toDecimalDigits, ofDecimalDigits]
    · rw [toDecimalDigits, if_neg h0, ofDecimalDigits]
      have hdiv : n / 10 ≤ f := by
        have : n / 10 < n := Nat.div_lt_self (Nat.pos_of_ne_zero h0)
          (by norm_num)
        omega
      rw [ih (n / 10) hdiv, Nat.mod_add_div]

theorem toDecimalDigits_lt_ten (fuel : Nat) :
    ∀ (n : Nat), ∀ d ∈ toDecimalDigits fuel n, d < 10 := by
  induction fuel with
  | zero =>
    intro n d hd
    simp [toDecimalDigits] at hd
  | succ f ih =>
    intro n d hd
    rw [toDecimalDigits] at hd
    by_cases h0 : n = 0
    · rw [if_pos h0] at hd
      simp at hd
    · rw [if_neg h0] at hd
      rcases List.mem_cons.mp hd with rfl | hd2
      · exact Nat.mod_lt n (by norm_num)
      · exact ih (n / 10) d hd2

theorem toDecimalDigits_eq_nil (fuel : Nat) :
    ∀ n : Nat, toDecimalDigits fuel n = [] → n ≤ fuel → n = 0 := by
  induction fuel with
  | zero =>
    intro n _ hn
    exact Nat.le_zero.mp hn
  | succ f _ =>
    intro n h _
    by_cases h0 : n = 0
    · exact h0
    · rw [toDecimalDigits, if_neg h0] at h
      exact absurd h (by simp)

theorem digitChar_inj_lt :
    ∀ a < 10, ∀ b < 10, Nat.digitChar a = Nat.digitChar b → a = b := by
  decide

theorem map_digitChar_inj (l1 : List Nat) :
    ∀ l2 : List Nat, (∀ d ∈ l1, d < 10) → (∀ d ∈ l2, d < 10) →
      l1.map Nat.digitChar = l2.map Nat.digitChar → l1 = l2 := by
  induction l1 with
  | nil =>
    intro l2 _ _ h
    cases l2 with
    | nil => rfl
    | cons b bs => simp at h
  | cons a as ih =>
    intro l2 h1 h2 h
    cases l2 with
    | nil => simp at h
    | cons b bs =>
      simp only [List.map_cons, List.cons.injEq] at h
      have hab : a = b :=
        digitChar_inj_lt a (h1 a (List.mem_cons_self a as)) b
          (h2 b (List.mem_cons_self b bs)) h.1
      have hrest : as = bs :=
        ih bs (fun d hd => h1 d (List.mem_cons_of_mem a hd))
          (fun d hd => h2 d (List.mem_cons_of_mem b hd)) h.2
      rw [hab, hrest]

theorem natToString_pos_ne (b : Nat) (hb : b ≠ 0) :
    natToString b ≠ "0" := by
  intro h
  obtain ⟨m, rfl⟩ : ∃ m, b = m + 1 := ⟨b - 1, by omega⟩
  have hdata := congrArg String.data h
  rw [natToString, if_neg hb] at hdata
  have hmk : (String.mk (((toDecimalDigits (m + 1) (m + 1)).map
      Nat.digitChar).reverse)).data =
        ((toDecimalDigits (m + 1) (m + 1)).map Nat.digitChar).reverse := rfl
  rw [hmk] at hdata
  have hzero : ("0" : String).data = [Char.ofNat 48] := by decide
  rw [hzero] at hdata
  have hlen : (toDecimalDigits (m + 1) (m + 1)).length = 1 := by
    have := congrArg List.length hdata
    simpa using this
  rw [toDecimalDigits, if_neg hb] at hdata hlen
  simp only [List.length_cons, Nat.add_left_eq_self] at hlen
  have hnil : toDecimalDigits m ((m + 1) / 10) = [] :=
    List.length_eq_zero.mp hlen
  have hb10 : (m + 1) / 10 = 0 := by
    refine toDecimalDigits_eq_nil _ _ hnil ?_
    have : (m + 1) / 10 < m + 1 := Nat.div_lt_self (by omega) (by norm_num)
    omega
  rw [hnil] at hdata
  simp only [List.map_cons, List.map_nil, List.reverse_cons,
    List.reverse_nil, List.nil_append, List.cons.injEq] at hdata
  have hmod : (m + 1) % 10 = 0 := by
    have hlt : (m + 1) % 10 < 10 := Nat.mod_lt _ (by norm_num)
    have hinj : ∀ d < 10, Nat.digitChar d = Char.ofNat 48 → d = 0 := by
      decide
    exact hinj _ hlt hdata.1
  omega

theorem natToString_injective (a b : Nat)
    (h : natToString a = natToString b) : a = b := by
  by_cases ha : a = 0 <;> by_cases hb : b = 0
  · rw [ha, hb]
  · exfalso
    apply natToString_pos_ne b hb
    rw [← h, ha]
    rfl
  · exfalso
    apply natToString_pos_ne a ha
    rw [h, hb]
    rfl
  · have hdata := congrArg String.data h
    rw [natToString, if_neg ha, natToString, if_neg hb] at hdata
    have hdata2 : ((toDecimalDigits a a).map Nat.digitChar).reverse =
        ((toDecimalDigits b b).map Nat.digitChar).reverse := hdata
    rw [List.reverse_inj] at hdata2
    have hdig : toDecimalDigits a a = toDecimalDigits b b :=
      map_digitChar_inj _ _ (toDecimalDigits_lt_ten a a)
        (toDecimalDigits_lt_ten b b) hdata2
    have := congrArg ofDecimalDigits hdig
    rwa [ofDecimalDigits_toDecimalDigits a a (Nat.le_refl a),
      ofDecimalDigits_toDecimalDigits b b (Nat.le_refl b)] at this

/-- Properties of a successful ad-id retrieval: the returned list is
strictly ascending (distinct, sorted), has at most 65536 elements, and
contains every positive originalAdId of the input. -/
theorem retrieveValidOriginalAdIds_ok (touchpointRows : List (List Touchpoint))
    (valid : List Nat)
    (hok : retrieveValidOriginalAdIds touchpointRows = Except.ok valid) :
    List.Pairwise (fun a b => a < b) valid ∧ valid.length ≤ 65536 ∧
      ∀ row ∈ touchpointRows, ∀ tp ∈ row, 0 < tp.originalAdId →
        tp.originalAdId ∈ valid := by
  rw [retrieveValidOriginalAdIds] at hok
  set adIdSet :=
    (((touchpointRows.flatMap (fun row => row)).map
      (fun tp => tp.originalAdId)).filter (fun adId => 0 < adId)).dedup
    with hset
  split at hok
  · next hle =>
    simp only [Except.ok.injEq] at hok
    subst hok
    have hperm : (adIdSet.insertionSort (· ≤ ·)).Perm adIdSet :=
      List.perm_insertionSort _ _
    have hnodup : (adIdSet.insertionSort (· ≤ ·)).Nodup :=
      hperm.symm.nodup (List.nodup_dedup _)
    have hsorted : List.Sorted (· ≤ ·) (adIdSet.insertionSort (· ≤ ·)) :=
      List.sorted_insertionSort _ _
    refine ⟨hsorted.lt_of_le hnodup, ?_, ?_⟩
    · rw [hperm.length_eq]
      exact hle
    · intro row hrow tp htp hpos
      rw [hperm.mem_iff, hset, List.mem_dedup, List.mem_filter]
      refine ⟨List.mem_map.mpr ⟨tp, ?_, rfl⟩, by simpa using hpos⟩
      exact List.mem_flatMap.mpr ⟨row, hrow, htp⟩
  · exact absurd hok (by simp)

/-- A successful at-lookup in the compression map locates the key in the
valid list and returns the mod-2^16 dense id of its position. -/
theorem mapAt_buildCompressedAdIdMap (valid : List Nat) :
    ∀ (c0 o v : Nat),
      mapAt (buildCompressedAdIdMap valid c0) o = Except.ok v →
      ∃ k, k < valid.length ∧ valid[k]? = some o ∧ v = (c0 + k) % 65536 := by
  induction valid with
  | nil =>
    intro c0 o v h
    exact absurd h (by simp [buildCompressedAdIdMap, mapAt])
  | cons a rest ih =>
    intro c0 o v h
    rw [buildCompressedAdIdMap, mapAt, List.find?] at h
    by_cases hao : (a == o) = true
    · rw [hao] at h
      simp only [Except.ok.injEq] at h
      refine ⟨0, by simp, by simp [eq_of_beq hao], ?_⟩
      rw [← h, Nat.add_zero]
    · rw [Bool.not_eq_true] at hao
      rw [hao] at h
      obtain ⟨k, hk, hke, hkv⟩ := ih (c0 + 1) o v h
      refine ⟨k + 1, by simpa using hk, by simpa using hke, ?_⟩
      rw [hkv]
      congr 1
      omega

/-- Lookup of the k-th key in the persisted compressed-to-original map:
when the keys of all earlier entries differ, it returns the k-th original
ad id. -/
theorem jsonLookup_buildPersistedMap (valid : List Nat) :
    ∀ (c0 k o : Nat), valid[k]? = some o →
      (∀ j < k, natToString ((c0 + j) % 65536) ≠
        natToString ((c0 + k) % 65536)) →
      jsonLookup (buildCompressedAdIdToOriginalAdIdMap valid c0)
        (natToString ((c0 + k) % 65536)) = some o := by
  induction valid with
  | nil =>
    intro c0 k o hk _
    simp at hk
  | cons a rest ih =>
    intro c0 k o hk hdiff
    rw [buildCompressedAdIdToOriginalAdIdMap, jsonLookup, List.find?]
    cases k with
    | zero =>
      simp only [List.getElem?_cons_zero, Option.some.injEq] at hk
      subst hk
      rw [Nat.add_zero, (by simp : (natToString (c0 % 65536) ==
        natToString (c0 % 65536)) = true)]
      rfl
    | succ k2 =>
      have hne : natToString (c0 % 65536) ≠
          natToString ((c0 + (k2 + 1)) % 65536) := by
        have := hdiff 0 (Nat.succ_pos k2)
        rwa [Nat.add_zero] at this
      rw [(by simp [hne] : (natToString (c0 % 65536) ==
        natToString ((c0 + (k2 + 1)) % 65536)) = false)]
      simp only [List.getElem?_cons_succ] at hk
      have harith : c0 + (k2 + 1) = c0 + 1 + k2 := by omega
      rw [harith] at hdiff ⊢
      refine ih (c0 + 1) k2 o hk ?_
      intro j hj
      have := hdiff (j + 1) (by omega)
      have harith2 : c0 + (j + 1) = c0 + 1 + j := by omega
      rwa [harith2] at this

/-- Every touchpoint of a successfully rewritten row with a positive
original ad id carries, in its adId field, exactly the map's value for
that original ad id. -/
theorem replaceRow_forall (m : List (Nat × Nat)) (row : List Touchpoint) :
    ∀ row2 : List Touchpoint, replaceRow m row = Except.ok row2 →
      ∀ tp2 ∈ row2, 0 < tp2.originalAdId →
        mapAt m tp2.originalAdId = Except.ok tp2.adId := by
  induction row with
  | nil =>
    intro row2 h tp2 htp2
    rw [replaceRow] at h
    simp only [Except.ok.injEq] at h
    subst h
    simp at htp2
  | cons tp rest ih =>
    intro row2 h tp2 htp2 hpos
    rw [replaceRow] at h
    by_cases hp : 0 < tp.originalAdId
    · rw [if_pos hp] at h
      cases hm : mapAt m tp.originalAdId with
      | error e => rw [hm] at h; exact absurd h (by simp)
      | ok compressed =>
        rw [hm] at h
        cases hr : replaceRow m rest with
        | error e => rw [hr] at h; exact absurd h (by simp)
        | ok rest2 =>
          rw [hr] at h
          simp only [Except.ok.injEq] at h
          subst h
          rcases List.mem_cons.mp htp2 with rfl | h2
          · exact hm
          · exact ih rest2 hr tp2 h2 hpos
    · rw [if_neg hp] at h
      cases hr : replaceRow m rest with
      | error e => rw [hr] at h; exact absurd h (by simp)
      | ok rest2 =>
        rw [hr] at h
        simp only [Except.ok.injEq] at h
        subst h
        rcases List.mem_cons.mp htp2 with rfl | h2
        · exact absurd hpos hp
        · exact ih rest2 hr tp2 h2 hpos

/-- Row-level version of `replaceRow_forall`. -/
theorem replaceRows_forall (m : List (Nat × Nat))
    (rows : List (List Touchpoint)) :
    ∀ rows2, replaceRows m rows = Except.ok rows2 →
      ∀ row2 ∈ rows2, ∀ tp2 ∈ row2, 0 < tp2.originalAdId →
        mapAt m tp2.originalAdId = Except.ok tp2.adId := by
  induction rows with
  | nil =>
    intro rows2 h row2 hrow2
    rw [replaceRows] at h
    simp only [Except.ok.injEq] at h
    subst h
    simp at hrow2
  | cons row rest ih =>
    intro rows2 h row2 hrow2 tp2 htp2 hpos
    rw [replaceRows] at h
    cases h1 : replaceRow m row with
    | error e => rw [h1] at h; exact absurd h (by simp)
    | ok r2 =>
      cases h2 : replaceRows m rest with
      | error e => rw [h1, h2] at h; exact absurd h (by simp)
      | ok rs2 =>
        rw [h1, h2] at h
        simp only [Except.ok.injEq] at h
        subst h
        rcases List.mem_cons.mp hrow2 with rfl | hr2
        · exact replaceRow_forall m row row2 h1 tp2 htp2 hpos
        · exact ih rs2 h2 row2 hr2 tp2 htp2 hpos

/-- C4: ad-id compression is deterministic — the valid original ad ids are
strictly ascending and each touchpoint's dense id is 1 + (its position)
mod 2^16 — and the persisted artifact round-trips: for every touchpoint
with a positive originalAdId, looking up the string of its compressed adId
in the persisted map returns exactly that originalAdId. -/
theorem ad_id_compression_round_trip
    (touchpointRows : List (List Touchpoint)) (valid : List Nat)
    (rows2 : List (List Touchpoint)) (row2 : List Touchpoint)
    (tp2 : Touchpoint)
    (hvalid : retrieveValidOriginalAdIds touchpointRows = Except.ok valid)
    (hreplace : replaceAdIdWithCompressedAdId touchpointRows valid =
      Except.ok rows2)
    (hrow : row2 ∈ rows2) (htp : tp2 ∈ row2)
    (hpos : 0 < tp2.originalAdId) :
    List.Pairwise (fun a b => a < b) valid ∧
      (∃ k, k < valid.length ∧ valid[k]? = some tp2.originalAdId ∧
        tp2.adId = (1 + k) % 65536) ∧
      jsonLookup (buildCompressedAdIdToOriginalAdIdMap valid 1)
        (natToString tp2.adId) = some tp2.originalAdId := by
  obtain ⟨hpair, hle, _⟩ :=
    retrieveValidOriginalAdIds_ok touchpointRows valid hvalid
  rw [replaceAdIdWithCompressedAdId] at hreplace
  have hmap := replaceRows_forall _ touchpointRows rows2 hreplace row2 hrow
    tp2 htp hpos
  obtain ⟨k, hk, hke, hkv⟩ :=
    mapAt_buildCompressedAdIdMap valid 1 tp2.originalAdId tp2.adId hmap
  refine ⟨hpair, ⟨k, hk, hke, hkv⟩, ?_⟩
  rw [hkv]
  exact jsonLookup_buildPersistedMap valid 1 k tp2.originalAdId hke
    (fun j hj heq => by
      have hj65536 : j < 65536 := by omega
      have hk65536 : k < 65536 := by omega
      have := natToString_injective _ _ heq
      omega)

/-- Witness for C4 at the spec's example: original ad ids
{500, 17, 500, 0, 42} give valid = [17, 42, 500] and the 500-touchpoint's
compressed id 3 round-trips through the persisted map. -/
theorem ad_id_compression_round_trip_witness :
    List.Pairwise (fun a b => a < b) [17, 42, 500] ∧
      (∃ k, k < ([17, 42, 500] : List Nat).length ∧
        ([17, 42, 500] : List Nat)[k]? =
          some (⟨0, false, 0, 3, 500⟩ : Touchpoint).originalAdId ∧
        (⟨0, false, 0, 3, 500⟩ : Touchpoint).adId = (1 + k) % 65536) ∧
      jsonLookup (buildCompressedAdIdToOriginalAdIdMap [17, 42, 500] 1)
        (natToString (⟨0, false, 0, 3, 500⟩ : Touchpoint).adId) =
          some (⟨0, false, 0, 3, 500⟩ : Touchpoint).originalAdId :=
  ad_id_compression_round_trip
    [[⟨0, false, 0, 0, 500⟩, ⟨1, false, 0, 0, 17⟩],
      [⟨0, false, 0, 0, 500⟩, ⟨1, false, 0, 0, 0⟩, ⟨2, false, 0, 0, 42⟩]]
    [17, 42, 500]
    [[⟨0, false, 0, 3, 500⟩, ⟨1, false, 0, 1, 17⟩],
      [⟨0, false, 0, 3, 500⟩, ⟨1, false, 0, 0, 0⟩, ⟨2, false, 0, 2, 42⟩]]
    [⟨0, false, 0, 3, 500⟩, ⟨1, false, 0, 1, 17⟩]
    ⟨0, false, 0, 3, 500⟩ rfl rfl (by decide) (by decide) (by decide)

theorem mapAt_cons_self (k v : Nat) (rest : List (Nat × Nat)) :
    mapAt ((k, v) :: rest) k = Except.ok v := by
  rw [mapAt, List.find?_cons_of_pos _ (by simp)]

theorem mapAt_cons_ne (k v a : Nat) (rest : List (Nat × Nat)) (h : k ≠ a) :
    mapAt ((k, v) :: rest) a = mapAt rest a := by
  rw [mapAt, mapAt, List.find?_cons_of_neg _ (by simp [h])]

/-- The dense id assigned to element a of the ascending run
range' s n, counting from c: its position is a - s, and the stored 16-bit
value is (c + (a - s)) mod 2^16. -/
theorem mapAt_buildCompressedAdIdMap_range' :
    ∀ (n s c a : Nat), s ≤ a → a < s + n →
      mapAt (buildCompressedAdIdMap (List.range' s n) c) a =
        Except.ok ((c + (a - s)) % 65536) := by
  intro n
  induction n with
  | zero =>
    intro s c a h1 h2
    omega
  | succ m ih =>
    intro s c a h1 h2
    rw [List.range'_succ, buildCompressedAdIdMap]
    by_cases hsa : s = a
    · subst hsa
      rw [mapAt_cons_self, Nat.sub_self, Nat.add_zero]
    · rw [mapAt_cons_ne _ _ _ _ hsa, ih (s + 1) (c + 1) a (by omega)
        (by omega)]
      congr 1
      omega

/-- C5 (the code at the boundary): with exactly 65536 distinct positive
original ad ids, retrieval succeeds (the CHECK_LE allows 65536), but
because the dense-id counter is a uint16_t starting at 1, the 65536-th ad
id is assigned the dense id (1 + 65535) mod 2^16 = 0 — colliding with the
reserved none/padding value 0, so the assigned dense ids are not all
non-zero as the spec requires. -/
theorem ad_id_compression_wraps_at_65536 :
    retrieveValidOriginalAdIds [(List.range' 1 65536).map
        (fun a => (⟨0, false, 0, 0, a⟩ : Touchpoint))] =
      Except.ok (List.range' 1 65536) ∧
      mapAt (buildCompressedAdIdMap (List.range' 1 65536) 1) 65536 =
        Except.ok 0 := by
  constructor
  · have hchain :
        ((([(List.range' 1 65536).map
          (fun a => (⟨0, false, 0, 0, a⟩ : Touchpoint))].flatMap
            (fun row => row)).map (fun tp => tp.originalAdId)).filter
          (fun adId => 0 < adId)).dedup = List.range' 1 65536 := by
      rw [List.flatMap_cons, List.flatMap_nil, List.append_nil,
        List.map_map]
      have hcomp : ((fun tp => tp.originalAdId) ∘
          (fun a => (⟨0, false, 0, 0, a⟩ : Touchpoint))) = id := rfl
      rw [hcomp, List.map_id]
      have hfilter : (List.range' 1 65536).filter
          (fun adId => 0 < adId) = List.range' 1 65536 := by
        refine List.filter_eq_self.mpr ?_
        intro a ha
        rw [List.mem_range'] at ha
        obtain ⟨i, _, rfl⟩ := ha
        simp
      rw [hfilter]
      exact List.dedup_eq_self.mpr (List.nodup_range' 1 65536)
    have hsorted : List.Sorted (fun a b => a ≤ b)
        (List.range' 1 65536) :=
      (List.pairwise_lt_range' 1 65536).imp (fun h => Nat.le_of_lt h)
    rw [retrieveValidOriginalAdIds]
    simp only [hchain, List.length_range']
    rw [if_pos (by norm_num), hsorted.insertionSort_eq]
  · rw [mapAt_buildCompressedAdIdMap_range' 65536 1 1 65536 (by norm_num)
      (by norm_num)]


theorem except_bind_ok (x : Except String γ) (f : γ → Except String β)
    (b : β) (h : (x >>= f) = Except.ok b) :
    ∃ a, x = Except.ok a ∧ f a = Except.ok b := by
  cases x with
  | ok a => exact ⟨a, rfl, h⟩
  | error e =>
    have hred : ((Except.error e : Except String γ) >>= f) =
        Except.error e := rfl
    rw [hred] at h
    exact absurd h (by simp)

theorem listAt_ok (l : List γ) (i : Nat) (a : γ)
    (h : listAt l i = Except.ok a) : l[i]? = some a := by
  rw [listAt] at h
  cases he : l[i]? with
  | none => rw [he] at h; exact absurd h (by simp)
  | some x =>
    rw [he] at h
    simp only [Except.ok.injEq] at h
    subst h
    rfl

theorem attributionRowsV1_ok (rule : AttributionRule)
    (tpArrays : List (List Touchpoint))
    (convArrays : List (List Conversion))
    (thresholdArrays : List (List (List Nat))) (batchSize : Nat) :
    ∀ (count i : Nat) (rows : List (List Bool)),
      attributionRowsV1 rule tpArrays convArrays thresholdArrays batchSize
          i count = Except.ok rows →
      rows.length = count ∧
        ∀ (k : Nat) (row : List Bool), rows[k]? = some row →
          ∃ tpRow convRow thRow,
            tpArrays[i + k]? = some tpRow ∧
            convArrays[i + k]? = some convRow ∧
            thresholdArrays[i + k]? = some thRow ∧
            computeAttributionsHelper false batchSize tpRow convRow rule
              thRow = Except.ok row := by
  intro count
  induction count with
  | zero =>
    intro i rows h
    rw [attributionRowsV1] at h
    simp only [Except.ok.injEq] at h
    subst h
    refine ⟨rfl, ?_⟩
    intro k row hk
    simp at hk
  | succ m ih =>
    intro i rows h
    rw [attributionRowsV1] at h
    obtain ⟨tpRow, h1, h⟩ := except_bind_ok _ _ _ h
    obtain ⟨convRow, h2, h⟩ := except_bind_ok _ _ _ h
    obtain ⟨thRow, h3, h⟩ := except_bind_ok _ _ _ h
    obtain ⟨row0, h4, h⟩ := except_bind_ok _ _ _ h
    obtain ⟨rest, h5, h⟩ := except_bind_ok _ _ _ h
    simp only [Except.ok.injEq] at h
    subst h
    obtain ⟨hlen, hrest⟩ := ih (i + 1) rest h5
    refine ⟨by simp [hlen], ?_⟩
    intro k row hk
    cases k with
    | zero =>
      simp only [List.getElem?_cons_zero, Option.some.injEq] at hk
      subst hk
      refine ⟨tpRow, convRow, thRow, ?_, ?_, ?_, h4⟩
      · rw [Nat.add_zero]
        exact listAt_ok _ _ _ h1
      · rw [Nat.add_zero]
        exact listAt_ok _ _ _ h2
      · rw [Nat.add_zero]
        exact listAt_ok _ _ _ h3
    | succ k2 =>
      simp only [List.getElem?_cons_succ] at hk
      obtain ⟨tpRow2, convRow2, thRow2, ha, hb, hc, hd⟩ := hrest k2 row hk
      refine ⟨tpRow2, convRow2, thRow2, ?_, ?_, ?_, hd⟩
      · rwa [(by omega : i + (k2 + 1) = i + 1 + k2)]
      · rwa [(by omega : i + (k2 + 1) = i + 1 + k2)]
      · rwa [(by omega : i + (k2 + 1) = i + 1 + k2)]

theorem attributionRowsV2_ok (rule : AttributionRule)
    (tpArrays : List (List Touchpoint))
    (convArrays : List (List Conversion))
    (thresholdArrays : List (List (List Nat))) (batchSize : Nat) :
    ∀ (count i : Nat)
      (rows : List (List AttributionReformattedOutputFmt)),
      attributionRowsV2 rule tpArrays convArrays thresholdArrays batchSize
          i count = Except.ok rows →
      rows.length = count ∧
        ∀ (k : Nat) (row : List AttributionReformattedOutputFmt),
          rows[k]? = some row →
          ∃ tpRow convRow thRow,
            tpArrays[i + k]? = some tpRow ∧
            convArrays[i + k]? = some convRow ∧
            thresholdArrays[i + k]? = some thRow ∧
            computeAttributionsHelperV2 false batchSize tpRow convRow rule
              thRow = Except.ok row := by
  intro count
  induction count with
  | zero =>
    intro i rows h
    rw [attributionRowsV2] at h
    simp only [Except.ok.injEq] at h
    subst h
    refine ⟨rfl, ?_⟩
    intro k row hk
    simp at hk
  | succ m ih =>
    intro i rows h
    rw [attributionRowsV2] at h
    obtain ⟨tpRow, h1, h⟩ := except_bind_ok _ _ _ h
    obtain ⟨convRow, h2, h⟩ := except_bind_ok _ _ _ h
    obtain ⟨thRow, h3, h⟩ := except_bind_ok _ _ _ h
    obtain ⟨row0, h4, h⟩ := except_bind_ok _ _ _ h
    obtain ⟨rest, h5, h⟩ := except_bind_ok _ _ _ h
    simp only [Except.ok.injEq] at h
    subst h
    obtain ⟨hlen, hrest⟩ := ih (i + 1) rest h5
    refine ⟨by simp [hlen], ?_⟩
    intro k row hk
    cases k with
    | zero =>
      simp only [List.getElem?_cons_zero, Option.some.injEq] at hk
      subst hk
      refine ⟨tpRow, convRow, thRow, ?_, ?_, ?_, h4⟩
      · rw [Nat.add_zero]
        exact listAt_ok _ _ _ h1
      · rw [Nat.add_zero]
        exact listAt_ok _ _ _ h2
      · rw [Nat.add_zero]
        exact listAt_ok _ _ _ h3
    | succ k2 =>
      simp only [List.getElem?_cons_succ] at hk
      obtain ⟨tpRow2, convRow2, thRow2, ha, hb, hc, hd⟩ := hrest k2 row hk
      refine ⟨tpRow2, convRow2, thRow2, ?_, ?_, ?_, hd⟩
      · rwa [(by omega : i + (k2 + 1) = i + 1 + k2)]
      · rwa [(by omega : i + (k2 + 1) = i + 1 + k2)]
      · rwa [(by omega : i + (k2 + 1) = i + 1 + k2)]

theorem attributionRulesLoop_ok (inputEncryption : InputEncryption)
    (useNewOutputFormat : Bool) (tpArrays : List (List Touchpoint))
    (convArrays : List (List Conversion)) (numIds : Nat) :
    ∀ (rules : List AttributionRule) (out : List (String × RuleOutput)),
      attributionRulesLoop inputEncryption useNewOutputFormat tpArrays
          convArrays numIds rules = Except.ok out →
      ∀ entry ∈ out,
        entry.2.numRows = numIds ∧
        ∃ (rule : AttributionRule)
          (thresholdArrays : List (List (List Nat))),
          rule.name = entry.1 ∧
          privatelyShareThresholds inputEncryption false tpArrays rule
            numIds = Except.ok thresholdArrays ∧
          (match entry.2 with
           | RuleOutput.v1 rows =>
             ∀ (k : Nat) (row : List Bool), rows[k]? = some row →
               ∃ tpRow convRow thRow,
                 tpArrays[k]? = some tpRow ∧
                 convArrays[k]? = some convRow ∧
                 thresholdArrays[k]? = some thRow ∧
                 computeAttributionsHelper false numIds tpRow convRow rule
                   thRow = Except.ok row
           | RuleOutput.v2 rows =>
             ∀ (k : Nat) (row : List AttributionReformattedOutputFmt),
               rows[k]? = some row →
               ∃ tpRow convRow thRow,
                 tpArrays[k]? = some tpRow ∧
                 convArrays[k]? = some convRow ∧
                 thresholdArrays[k]? = some thRow ∧
                 computeAttributionsHelperV2 false numIds tpRow convRow
                   rule thRow = Except.ok row) := by
  intro rules
  induction rules with
  | nil =>
    intro out h entry he
    rw [attributionRulesLoop] at h
    simp only [Except.ok.injEq] at h
    subst h
    simp at he
  | cons rule rest ih =>
    intro out h entry he
    rw [attributionRulesLoop] at h
    obtain ⟨thresholdArrays, hth, h⟩ := except_bind_ok _ _ _ h
    by_cases hlen : thresholdArrays.length ≠ tpArrays.length
    · rw [if_pos hlen] at h
      exact absurd h (by simp)
    · rw [if_neg hlen] at h
      by_cases hfmt : useNewOutputFormat = true
      · rw [if_pos hfmt] at h
        obtain ⟨rows, hrows, h⟩ := except_bind_ok _ _ _ h
        obtain ⟨outRest, hrest, h⟩ := except_bind_ok _ _ _ h
        simp only [Except.ok.injEq] at h
        subst h
        rcases List.mem_cons.mp he with rfl | he2
        · obtain ⟨hlen2, hprov⟩ := attributionRowsV2_ok rule tpArrays
            convArrays thresholdArrays numIds numIds 0 rows hrows
          refine ⟨hlen2, rule, thresholdArrays, rfl, hth, ?_⟩
          intro k row hk
          have := hprov k row hk
          rwa [Nat.zero_add] at this
        · exact ih outRest hrest entry he2
      · rw [if_neg hfmt] at h
        obtain ⟨rows, hrows, h⟩ := except_bind_ok _ _ _ h
        obtain ⟨outRest, hrest, h⟩ := except_bind_ok _ _ _ h
        simp only [Except.ok.injEq] at h
        subst h
        rcases List.mem_cons.mp he with rfl | he2
        · obtain ⟨hlen2, hprov⟩ := attributionRowsV1_ok rule tpArrays
            convArrays thresholdArrays numIds numIds 0 rows hrows
          refine ⟨hlen2, rule, thresholdArrays, rfl, hth, ?_⟩
          intro k row hk
          have := hprov k row hk
          rwa [Nat.zero_add] at this
        · exact ih outRest hrest entry he2

/-- C10 counterexample to the unbounded reading: with 2^32 id rows (and no
touchpoint/conversion rows, one rule), the run succeeds and the rule's
output has 0 rows — numIds is the uint32_t truncation of ids.size(), which
wrapped to 0, not the number of input id rows. -/
theorem batch_size_truncation_counterexample :
    computeAttributions InputEncryption.Plaintext false PUBLISHER
        ⟨List.replicate (2 ^ 32) 0, [], [], ["last_touch"]⟩ =
        Except.ok [("last_touch", RuleOutput.v1 [])] ∧
      (RuleOutput.v1 ([] : List (List Bool))).numRows ≠
        (List.replicate (2 ^ 32) (0 : Nat)).length := by
  constructor
  · rw [computeAttributions]
    have hproj : ((⟨List.replicate (2 ^ 32) 0, [], [], ["last_touch"]⟩ :
        AttributionInputMetrics)).ids = List.replicate (2 ^ 32) 0 := rfl
    have hn : ((⟨List.replicate (2 ^ 32) 0, [], [], ["last_touch"]⟩ :
        AttributionInputMetrics)).ids.length % 2 ^ 32 = 0 := by
      rw [hproj, List.length_replicate, Nat.mod_self]
    rw [hn]
    rfl
  · rw [List.length_replicate]
    intro h
    have h0 : (RuleOutput.v1 ([] : List (List Bool))).numRows = 0 := rfl
    rw [h0] at h
    norm_num at h

/-- C10 (amended): the batch size used everywhere by computeAttributions is
the single value numIds = uint32_t(ids.size()) = ids.size() mod 2^32 —
equal to the number of input id rows whenever there are fewer than 2^32 of
them — and this value is passed as batchSize to privatelyShareThresholds
and to the attribution helper of every row, and in row-wise mode it also
bounds the per-row loop, so every rule's output has exactly numIds rows. -/
theorem batch_size_is_num_ids (inputEncryption : InputEncryption)
    (useNewOutputFormat : Bool) (myRole : Nat)
    (inputData : AttributionInputMetrics)
    (out : List (String × RuleOutput))
    (hok : computeAttributions inputEncryption useNewOutputFormat myRole
      inputData = Except.ok out) :
    ∀ entry ∈ out,
      entry.2.numRows = inputData.ids.length % 2 ^ 32 ∧
      (inputData.ids.length < 2 ^ 32 →
        entry.2.numRows = inputData.ids.length) ∧
      ∃ (rule : AttributionRule) (tpArrays : List (List Touchpoint))
        (thresholdArrays : List (List (List Nat))),
        rule.name = entry.1 ∧
        privatelyShareThresholds inputEncryption false tpArrays rule
          (inputData.ids.length % 2 ^ 32) = Except.ok thresholdArrays ∧
        (match entry.2 with
         | RuleOutput.v1 rows =>
           ∀ (k : Nat) (row : List Bool), rows[k]? = some row →
             ∃ tpRow convRow thRow,
               tpArrays[k]? = some tpRow ∧
               inputData.conversionRows[k]? = some convRow ∧
               thresholdArrays[k]? = some thRow ∧
               computeAttributionsHelper false
                 (inputData.ids.length % 2 ^ 32) tpRow convRow rule thRow =
                   Except.ok row
         | RuleOutput.v2 rows =>
           ∀ (k : Nat) (row : List AttributionReformattedOutputFmt),
             rows[k]? = some row →
             ∃ tpRow convRow thRow,
               tpArrays[k]? = some tpRow ∧
               inputData.conversionRows[k]? = some convRow ∧
               thresholdArrays[k]? = some thRow ∧
               computeAttributionsHelperV2 false
                 (inputData.ids.length % 2 ^ 32) tpRow convRow rule thRow =
                   Except.ok row) := by
  rw [computeAttributions] at hok
  by_cases hfmt : useNewOutputFormat = true
  · rw [if_pos hfmt] at hok
    obtain ⟨validIds, hv, hok⟩ := except_bind_ok _ _ _ hok
    obtain ⟨touchpoints, htp, hok⟩ := except_bind_ok _ _ _ hok
    obtain ⟨rules, hrules, hok⟩ := except_bind_ok _ _ _ hok
    intro entry he
    obtain ⟨h1, rule, thresholdArrays, hname, hthr, hprov⟩ :=
      attributionRulesLoop_ok inputEncryption useNewOutputFormat
        touchpoints inputData.conversionRows
        (inputData.ids.length % 2 ^ 32) rules out hok entry he
    exact ⟨h1, fun hlt => by rw [h1, Nat.mod_eq_of_lt hlt], rule,
      touchpoints, thresholdArrays, hname, hthr, hprov⟩
  · rw [if_neg hfmt] at hok
    obtain ⟨touchpoints, htp, hok⟩ := except_bind_ok _ _ _ hok
    obtain ⟨rules, hrules, hok⟩ := except_bind_ok _ _ _ hok
    intro entry he
    obtain ⟨h1, rule, thresholdArrays, hname, hthr, hprov⟩ :=
      attributionRulesLoop_ok inputEncryption useNewOutputFormat
        touchpoints inputData.conversionRows
        (inputData.ids.length % 2 ^ 32) rules out hok entry he
    exact ⟨h1, fun hlt => by rw [h1, Nat.mod_eq_of_lt hlt], rule,
      touchpoints, thresholdArrays, hname, hthr, hprov⟩

/-- Witness for C10 at a concrete input: one id, one row — fewer than 2^32
rows, so the rule output has exactly ids.length rows. -/
theorem batch_size_is_num_ids_witness :
    (("last_touch", RuleOutput.v1 [[true]]) : String × RuleOutput).2.numRows
      = (⟨[7], [[⟨0, false, 100, 10, 0⟩]], [[⟨350, 5⟩]], ["last_touch"]⟩ :
          AttributionInputMetrics).ids.length :=
  ((batch_size_is_num_ids InputEncryption.Plaintext false PUBLISHER
      ⟨[7], [[⟨0, false, 100, 10, 0⟩]], [[⟨350, 5⟩]], ["last_touch"]⟩
      [("last_touch", RuleOutput.v1 [[true]])] rfl)
    ("last_touch", RuleOutput.v1 [[true]]) (by decide)).2.1 (by norm_num)
